import Mathlib

/-!
# Verification of the Millennium Dawn validation scripts

Shallow embedding of `tools/validation/validate_variables.py` and
`tools/validation/validate_scripted_localisation.py`.

Embedding conventions:
* The filesystem is a finite list of `FileEntry` records.  A path is stored
  relative to the mod root, so `mod_path` is the empty prefix and
  `os.path.relpath(p, mod_path) = p`.  A `glob` walk enumerates the list in
  order; `glob.iglob(mod_path + "**/*.txt", recursive=True)` is the sublist of
  entries whose path ends in `.txt`, in list order.
* `content = none` models a file whose `open`/`read`/decode raises; Python
  functions that catch the exception receive the modelled fallback.
* Texts are ASCII in this development: `str.lower()` is `Char.toLower` per
  character, and the `utf-8-sig` byte-order-mark handling is invisible.
* Python `str` values that flow through the extraction pipeline are modelled
  as `List Char` (the type `PyStr`), so that the regular-expression scanners are
  plain structural functions; file names stay `String`.
* A Python `dict` is an association list with unique keys in insertion order;
  assignment to an existing key keeps its position, assignment to a fresh key
  appends.  Iteration over a Python `set` has no specified order; it is
  modelled as iteration over the first occurrences of the underlying list.
-/

/-- A symbol / text fragment: a Python `str` viewed as its character list. -/
abbrev PyStr := List Char

/-- One file of the scanned tree: a path relative to the mod root and its
content, `none` when reading the file raises. -/
structure FileEntry where
  path : String
  content : Option String
deriving DecidableEq, Repr

/-- A modelled file tree. -/
abbrev Corpus := List FileEntry

/-- Python `needle in hay` on strings: substring containment. -/
def substr (needle hay : PyStr) : Bool :=
  match hay with
  | [] => needle.isEmpty
  | _ :: rest => needle.isPrefixOf hay || substr needle rest

/-- `substr` on `String` arguments. -/
def strSub (needle hay : String) : Bool :=
  substr needle.toList hay.toList

/-- Python `str.lower()` (ASCII). -/
def pyLower (s : PyStr) : PyStr := s.map Char.toLower

/-- `pyLower` on `String`. -/
def pyLowerS (s : String) : String := (pyLower s.toList).asString

/-- Python `str.endswith(suffix)`. -/
def strEndsWith (suffix s : String) : Bool :=
  suffix.toList.isSuffixOf s.toList

/-- `os.path.basename`: the component after the last `/`. -/
def basenameOf (s : String) : String :=
  ((s.toList.reverse.takeWhile (fun c => !(c == '/'))).reverse).asString

/-- `IGNORED_DIRS = ["gfx", "tools", "resources", "docs", "map"]` -/
def IGNORED_DIRS : List String := ["gfx", "tools", "resources", "docs", "map"]

/-- `should_skip_file`: normalizes `\` to `/` and skips the file when an
ignored directory name occurs as a path segment. -/
def should_skip_file (filename : String) : Bool :=
  let normalized_path : PyStr :=
    filename.toList.map (fun c => if c == '\\' then '/' else c)
  IGNORED_DIRS.any (fun d =>
    substr ('/' :: d.toList ++ ['/']) normalized_path ||
    (d.toList ++ ['/']).isPrefixOf normalized_path)

/-- Split a text into its lines, as Python line iteration does (a trailing
newline yields a final empty line that contains no pattern). -/
def splitLines : PyStr → List PyStr
  | [] => [[]]
  | c :: rest =>
    match splitLines rest with
    | [] => [[]]
    | l :: ls => if c == '\n' then [] :: l :: ls else (c :: l) :: ls

/-- 1-indexed scan of `find_line_number`: first line containing the pattern. -/
def findLineIdx (lowercase : Bool) (pat : PyStr) : List PyStr → Nat → Nat
  | [], _ => 0
  | l :: ls, n =>
    if substr pat (if lowercase then pyLower l else l) then n
    else findLineIdx lowercase pat ls (n + 1)

/-- `find_line_number(filename, pattern, lowercase)`: the 1-indexed first line
containing the pattern, `0` if absent; any read error is caught and yields 0. -/
def find_line_number (content? : Option String) (pattern : String)
    (lowercase : Bool) : Nat :=
  match content? with
  | none => 0
  | some text =>
    let pat := if lowercase then pyLower pattern.toList else pattern.toList
    findLineIdx lowercase pat (splitLines text.toList) 1

/-- Read the content of the file stored at `path`, `none` when the file does
not exist or reading it raises. -/
def readFile (corpus : Corpus) (path : String) : Option String :=
  (corpus.find? (fun f => f.path == path)).bind (·.content)

namespace FileOpener

/-- `FileOpener.open_text_file`: returns the (optionally lowercased) text;
any exception is caught, logged as a warning, and yields `""`. -/
def open_text_file (content? : Option String) (lowercase : Bool) : String :=
  match content? with
  | some s => if lowercase then pyLowerS s else s
  | none => ""

end FileOpener

/-! ### Python dictionaries as insertion-ordered association lists -/

/-- `d[k] = v` on a Python dict: replace in place or append. -/
def dictSet (d : List (PyStr × String)) (k : PyStr) (v : String) :
    List (PyStr × String) :=
  match d with
  | [] => [(k, v)]
  | (k', v') :: rest =>
    if k' = k then (k, v) :: rest else (k', v') :: dictSet rest k v

/-- Dict lookup, `none` when the key is absent. -/
def dictGet? (d : List (PyStr × String)) (k : PyStr) : Option String :=
  match d with
  | [] => none
  | (k', v') :: rest => if k' = k then some v' else dictGet? rest k

/-- `d.get(k, default)`. -/
def dictGetD (d : List (PyStr × String)) (k : PyStr) (default : String) : String :=
  (dictGet? d k).getD default

/-- `k in d` for a dict. -/
def dictContains (d : List (PyStr × String)) (k : PyStr) : Bool :=
  (dictGet? d k).isSome

/-- `d.pop(k)`: remove the (unique) entry with key `k`. -/
def dictPop (d : List (PyStr × String)) (k : PyStr) : List (PyStr × String) :=
  match d with
  | [] => []
  | (k', v') :: rest => if k' = k then rest else (k', v') :: dictPop rest k

/-- Helper of `dedupFirst`: drop elements already seen. -/
def dedupFirstGo (seen : List PyStr) : List PyStr → List PyStr
  | [] => []
  | x :: rest =>
    if x ∈ seen then dedupFirstGo seen rest
    else x :: dedupFirstGo (x :: seen) rest

/-- First occurrences of a list, in order: the model of `set(l)` wherever the
set is afterwards iterated. -/
def dedupFirst (l : List PyStr) : List PyStr := dedupFirstGo [] l

/-! ### The regular-expression scanners

The extraction patterns of the two scripts fall into three shapes, embedded
as direct left-to-right scanners with the exact semantics of `re.findall`
(scan positions left to right, emit the capturing group of each
non-overlapping match, resume after the match):

* `lit([^X]+)` — a literal followed by a greedy non-empty run of characters
  outside the excluded set `X` (all the flag / event-target patterns);
* `open\{.*?flagLit([^X]+).*?\}` with `re.DOTALL` — the braced flag form
  (`.*?` is lazy, the capture is greedy, `}` is excluded from the capture);
* `name\s*=\s*([a-zA-Z_0-9]+)` — the scripted-localisation definition form.

Each scanner consumes at least one character per step, so a fuel argument
initialised with the text length makes them structurally recursive. -/

/-- Greedy run of characters outside `excl` — the `[^X]+` capture. -/
def tokenRun (excl : List Char) (l : PyStr) : PyStr :=
  l.takeWhile (fun c => !(excl.contains c))

/-- Index of the first occurrence of `c`, `none` when absent. -/
def findCharIdx (c : Char) : PyStr → Option Nat
  | [] => none
  | x :: xs => if x == c then some 0 else (findCharIdx c xs).map (· + 1)

/-- Fuel-based worker of `findallLitToken`. -/
def findallLitTokenGo (lit excl : List Char) : Nat → PyStr → List PyStr
  | 0, _ => []
  | _, [] => []
  | fuel + 1, text@(_ :: rest) =>
    if lit.isPrefixOf text then
      let tok := tokenRun excl (text.drop lit.length)
      if 0 < tok.length then
        tok :: findallLitTokenGo lit excl fuel (text.drop (lit.length + tok.length))
      else findallLitTokenGo lit excl fuel rest
    else findallLitTokenGo lit excl fuel rest

/-- `re.findall(lit + "([^excl]+)", text)`: all captures of the
literal-then-token patterns. -/
def findallLitToken (lit excl : List Char) (text : PyStr) : List PyStr :=
  findallLitTokenGo lit excl text.length text

/-- The lazy part `.*?flagLit([^excl]+).*?\}` of the braced patterns, tried at
the earliest possible offset (`.*?` with `re.DOTALL`); returns the capture and
the number of characters consumed from the start of the argument. -/
def bracedRest (excl : List Char) (flagLit : List Char) : PyStr → Option (PyStr × Nat)
  | [] => none
  | l@(_ :: rest) =>
    (if flagLit.isPrefixOf l then
      let tok := tokenRun excl (l.drop flagLit.length)
      if 0 < tok.length then
        match findCharIdx '}' (l.drop (flagLit.length + tok.length)) with
        | some p => some (tok, flagLit.length + tok.length + p + 1)
        | none => ((bracedRest excl flagLit rest).map fun r => (r.1, r.2 + 1))
      else ((bracedRest excl flagLit rest).map fun r => (r.1, r.2 + 1))
    else ((bracedRest excl flagLit rest).map fun r => (r.1, r.2 + 1)))

/-- Fuel-based worker of `findallBracedLit`. -/
def findallBracedLitGo (openLit excl flagLit : List Char) :
    Nat → PyStr → List PyStr
  | 0, _ => []
  | _, [] => []
  | fuel + 1, text@(_ :: rest) =>
    if openLit.isPrefixOf text then
      match bracedRest excl flagLit (text.drop openLit.length) with
      | some (tok, n) =>
        tok :: findallBracedLitGo openLit excl flagLit fuel
          (text.drop (openLit.length + n))
      | none => findallBracedLitGo openLit excl flagLit fuel rest
    else findallBracedLitGo openLit excl flagLit fuel rest

/-- `re.findall(openLit + r"\{.*?" + flagLit + "([^excl]+).*?\}", text,
flags=re.MULTILINE | re.DOTALL)` where `openLit` ends with the opening brace
(e.g. `set_country_flag = {`). -/
def findallBracedLit (openLit excl flagLit : List Char) (text : PyStr) :
    List PyStr :=
  findallBracedLitGo openLit excl flagLit text.length text

/-- Fuel-based worker of `findallBracedCls`. -/
def findallBracedClsGo (cls : List Char) (lit excl flagLit : List Char) :
    Nat → PyStr → List PyStr
  | 0, _ => []
  | _, [] => []
  | fuel + 1, c :: rest =>
    if cls.contains c && lit.isPrefixOf rest then
      match bracedRest excl flagLit (rest.drop lit.length) with
      | some (tok, n) =>
        tok :: findallBracedClsGo cls lit excl flagLit fuel
          (rest.drop (lit.length + n))
      | none => findallBracedClsGo cls lit excl flagLit fuel rest
    else findallBracedClsGo cls lit excl flagLit fuel rest

/-- `re.findall("[cls]" + lit + r"\{...")` — the `[y|s]_<type>_flag = {`
braced pattern: a character class followed by a literal ending in `{`. -/
def findallBracedCls (cls lit excl flagLit : List Char) (text : PyStr) :
    List PyStr :=
  findallBracedClsGo cls lit excl flagLit text.length text

/-- Python's `\s` class (ASCII part). -/
def pySpace (c : Char) : Bool :=
  c == ' ' || c == '\t' || c == '\n' || c == '\r' || c == '\x0b' || c == '\x0c'

/-- The `[a-zA-Z_0-9]` class. -/
def nameChar (c : Char) : Bool :=
  ('a' ≤ c && c ≤ 'z') || ('A' ≤ c && c ≤ 'Z') || ('0' ≤ c && c ≤ '9') || c == '_'

/-- Fuel-based worker of `findallNameDef`. -/
def findallNameDefGo : Nat → PyStr → List PyStr
  | 0, _ => []
  | _, [] => []
  | fuel + 1, text@(_ :: rest) =>
    if ("name".toList).isPrefixOf text then
      let a := text.drop 4
      let ws1 := a.takeWhile pySpace
      match a.drop ws1.length with
      | '=' :: b =>
        let ws2 := b.takeWhile pySpace
        let tok := (b.drop ws2.length).takeWhile nameChar
        if 0 < tok.length then
          tok :: findallNameDefGo fuel
            (text.drop (4 + ws1.length + 1 + ws2.length + tok.length))
        else findallNameDefGo fuel rest
      | _ => findallNameDefGo fuel rest
    else findallNameDefGo fuel rest

/-- `re.findall(r"name\s*=\s*([a-zA-Z_0-9]+)", text)`. -/
def findallNameDef (text : PyStr) : List PyStr :=
  findallNameDefGo text.length text

namespace DataCleaner

/-- The list branch of `DataCleaner.clear_false_positives_partial_match`:
collect every element containing some pattern, then drop the collected ones. -/
def clear_false_positives_list (input : List PyStr) (false_positives : List PyStr) :
    List PyStr :=
  if 0 < false_positives.length then
    let skip_list :=
      input.foldl (fun acc k =>
        false_positives.foldl (fun acc2 f =>
          if substr f k then acc2 ++ [k] else acc2) acc) []
    input.filter (fun i => !(skip_list.contains i))
  else input

/-- The dict branch of `DataCleaner.clear_false_positives_partial_match`:
collect every key containing some pattern, then pop the collected keys. -/
def clear_false_positives_dict (input : List (PyStr × String))
    (false_positives : List PyStr) : List (PyStr × String) :=
  if 0 < false_positives.length then
    let skip_list :=
      (input.map Prod.fst).foldl (fun acc k =>
        false_positives.foldl (fun acc2 f =>
          if substr f k then acc2 ++ [k] else acc2) acc) []
    skip_list.foldl (fun d i => if dictContains d i then dictPop d i else d)
      input
  else input

end DataCleaner

/-! ### ANSI colors and the report sink -/

namespace Colors

def HEADER : String := "\x1b[95m"
def BLUE : String := "\x1b[94m"
def CYAN : String := "\x1b[96m"
def GREEN : String := "\x1b[92m"
def YELLOW : String := "\x1b[93m"
def RED : String := "\x1b[91m"
def ENDC : String := "\x1b[0m"
def BOLD : String := "\x1b[1m"
def UNDERLINE : String := "\x1b[4m"

end Colors

/-- The `[0-9;]` class of the ANSI-stripping regex. -/
def isDigitSemi (c : Char) : Bool := ('0' ≤ c && c ≤ '9') || c == ';'

/-- Fuel-based worker of `stripAnsi`. -/
def stripAnsiGo : Nat → PyStr → PyStr
  | 0, l => l
  | _, [] => []
  | fuel + 1, c :: rest =>
    if c == '\x1b' then
      match rest with
      | '[' :: r2 =>
        let run := r2.takeWhile isDigitSemi
        (match r2.drop run.length with
         | 'm' :: r3 =>
           if 0 < run.length then stripAnsiGo fuel r3
           else c :: stripAnsiGo fuel rest
         | _ => c :: stripAnsiGo fuel rest)
      | _ => c :: stripAnsiGo fuel rest
    else c :: stripAnsiGo fuel rest

/-- `re.sub(r"\033\[[0-9;]+m", "", message)`: a single left-to-right pass
removing the non-overlapping ANSI SGR sequences. -/
def stripAnsi (l : PyStr) : PyStr := stripAnsiGo l.length l

/-- `stripAnsi` on `String`. -/
def stripAnsiS (s : String) : String := (stripAnsi s.toList).asString

/-- Does the text start with an ANSI SGR sequence `ESC [ [0-9;]+ m`? -/
def isSGRAt (l : PyStr) : Bool :=
  match l with
  | c1 :: c2 :: rest =>
    let run := rest.takeWhile isDigitSemi
    c1 == '\x1b' && c2 == '[' && !run.isEmpty &&
      (match rest.drop run.length with
       | c3 :: _ => c3 == 'm'
       | [] => false)
  | _ => false

/-- Does the text contain an ANSI SGR color sequence anywhere? -/
def hasAnsi : PyStr → Bool
  | [] => false
  | c :: rest => isSGRAt (c :: rest) || hasAnsi rest

/-! ### The extractors -/

/-- A defect record as rendered by the validators:
`<relative file path>[:<line>] - <symbol>` plus the line number (0 when the
probe line was not found; the `:<line>` segment is omitted in that case). -/
structure Defect where
  sym : PyStr
  file : String
  line : Nat
deriving DecidableEq, Repr

/-- `os.path.relpath(full_path, self.mod_path)`: corpus paths are stored
relative to the mod root, so this is the identity. -/
def relpath (p : String) : String := p

/-- The flag-type check shared by the three flag extractors:
`flag_type in ["country", "state", "global"]`. -/
def flagTypeValid (ft : String) : Bool :=
  ["country", "state", "global"].contains ft

/-- The shared inner loops
`for match in pattern_matches: flags.append(match); paths[match] = basename`:
every match is appended to the list and its path entry overwritten. -/
def processMatches (st : List PyStr × List (PyStr × String)) (basename : String)
    (ms : List PyStr) : List PyStr × List (PyStr × String) :=
  ms.foldl (fun st m => (st.1 ++ [m], dictSet st.2 m basename)) st

/-- `glob.iglob(mod_path + "**/*.txt", recursive=True)`. -/
def globTxt (corpus : Corpus) : Corpus :=
  corpus.filter (fun f => strEndsWith ".txt" f.path)

namespace Variables

/-- Matches contributed by one file in `Variables.get_all_used_flags`: skip
check, fault-tolerant read, containment guard, then the plain
`has_<type>_flag = (tok)` pattern followed by the braced
`[y|s]_<type>_flag = {...}` pattern. -/
def used_flags_file_matches (ft : String) (lowercase : Bool) (f : FileEntry) :
    List PyStr :=
  if should_skip_file f.path then []
  else
    let text := (FileOpener.open_text_file f.content lowercase).toList
    if substr ("has_" ++ ft ++ "_flag =").toList text ||
       substr ("modify_" ++ ft ++ "_flag =").toList text then
      findallLitToken ("has_" ++ ft ++ "_flag = ").toList [' ', '\t', '\n'] text
      ++ findallBracedCls ['y', '|', 's'] ("_" ++ ft ++ "_flag = \x7b").toList
          [' ', '\t', '\n', '}'] "flag = ".toList text
    else []

/-- `Variables.get_all_used_flags` (the `staged_files=None` branch; the
extraction itself is unchanged when a staged list narrows the corpus). -/
def get_all_used_flags (ft : String) (lowercase : Bool) (corpus : Corpus) :
    Except String (List PyStr × List (PyStr × String)) :=
  if flagTypeValid ft then
    .ok ((globTxt corpus).foldl
      (fun st f => processMatches st (basenameOf f.path)
        (used_flags_file_matches ft lowercase f)) ([], []))
  else .error "Unsupported flag value passed. Expected country, state, global"

/-- Matches contributed by one file in `Variables.get_all_set_flags`:
`set_<type>_flag = (tok)` plus the braced `set_<type>_flag = {...}` form. -/
def set_flags_file_matches (ft : String) (lowercase : Bool) (f : FileEntry) :
    List PyStr :=
  if should_skip_file f.path then []
  else
    let text := (FileOpener.open_text_file f.content lowercase).toList
    if substr ("set_" ++ ft ++ "_flag =").toList text then
      findallLitToken ("set_" ++ ft ++ "_flag = ").toList [' ', '\t', '\n'] text
      ++ findallBracedLit ("set_" ++ ft ++ "_flag = \x7b").toList
          [' ', '\t', '\n', '}'] "flag = ".toList text
    else []

/-- `Variables.get_all_set_flags`. -/
def get_all_set_flags (ft : String) (lowercase : Bool) (corpus : Corpus) :
    Except String (List PyStr × List (PyStr × String)) :=
  if flagTypeValid ft then
    .ok ((globTxt corpus).foldl
      (fun st f => processMatches st (basenameOf f.path)
        (set_flags_file_matches ft lowercase f)) ([], []))
  else .error "Unsupported flag value passed. Expected country, state, global"

/-- Matches contributed by one file in `Variables.get_all_cleared_flags`:
the single `clr_<type>_flag = (tok)` pattern. -/
def cleared_flags_file_matches (ft : String) (lowercase : Bool) (f : FileEntry) :
    List PyStr :=
  if should_skip_file f.path then []
  else
    let text := (FileOpener.open_text_file f.content lowercase).toList
    if substr ("clr_" ++ ft ++ "_flag =").toList text then
      findallLitToken ("clr_" ++ ft ++ "_flag = ").toList [' ', '\t', '\n'] text
    else []

/-- `Variables.get_all_cleared_flags`. -/
def get_all_cleared_flags (ft : String) (lowercase : Bool) (corpus : Corpus) :
    Except String (List PyStr × List (PyStr × String)) :=
  if flagTypeValid ft then
    .ok ((globTxt corpus).foldl
      (fun st f => processMatches st (basenameOf f.path)
        (cleared_flags_file_matches ft lowercase f)) ([], []))
  else .error "Unsupported flag value passed. Expected country, state, global"

end Variables

namespace EventTargets

/-- Matches contributed by one file in `EventTargets.get_all_used_targets`:
tag-alias files contribute `global_event_target = (tok)`, all other files
contribute `event_target:(tok)` and `has_event_target = (tok)`. -/
def used_targets_file_matches (lowercase : Bool) (f : FileEntry) : List PyStr :=
  if should_skip_file f.path then []
  else
    let text := (FileOpener.open_text_file f.content lowercase).toList
    if strSub "tag_aliases" f.path then
      if substr "global_event_target =".toList text then
        findallLitToken "global_event_target = ".toList
          [' ', '\n', '\t', '#', '"'] text
      else []
    else
      (if substr "event_target:".toList text then
        findallLitToken "event_target:".toList [' ', '\n', '\t', '#', '"'] text
       else [])
      ++ (if substr "has_event_target =".toList text then
        findallLitToken "has_event_target = ".toList [' ', '\n', '\t', '"'] text
       else [])

/-- `EventTargets.get_all_used_targets`. -/
def get_all_used_targets (lowercase : Bool) (corpus : Corpus) :
    List PyStr × List (PyStr × String) :=
  (globTxt corpus).foldl
    (fun st f => processMatches st (basenameOf f.path)
      (used_targets_file_matches lowercase f)) ([], [])

/-- Matches contributed by one file in `EventTargets.get_all_set_targets`:
tag-alias files are skipped entirely, others contribute
`save_global_event_target_as = (tok)` and `save_event_target_as = (tok)`. -/
def set_targets_file_matches (lowercase : Bool) (f : FileEntry) : List PyStr :=
  if should_skip_file f.path then []
  else if strSub "tag_aliases" f.path then []
  else
    let text := (FileOpener.open_text_file f.content lowercase).toList
    (if substr "save_global_event_target_as =".toList text then
      findallLitToken "save_global_event_target_as = ".toList
        [' ', '\n', '\t', '#', '"'] text
     else [])
    ++ (if substr "save_event_target_as =".toList text then
      findallLitToken "save_event_target_as = ".toList
        [' ', '\n', '\t', '#', '"'] text
     else [])

/-- `EventTargets.get_all_set_targets`. -/
def get_all_set_targets (lowercase : Bool) (corpus : Corpus) :
    List PyStr × List (PyStr × String) :=
  (globTxt corpus).foldl
    (fun st f => processMatches st (basenameOf f.path)
      (set_targets_file_matches lowercase f)) ([], [])

/-- Matches contributed by one file in `EventTargets.get_all_cleared_targets`:
the single `clear_global_event_target = (tok)` pattern. -/
def cleared_targets_file_matches (lowercase : Bool) (f : FileEntry) : List PyStr :=
  if should_skip_file f.path then []
  else
    let text := (FileOpener.open_text_file f.content lowercase).toList
    if substr "clear_global_event_target =".toList text then
      findallLitToken "clear_global_event_target = ".toList
        [' ', '\n', '\t', '#', '"'] text
    else []

/-- `EventTargets.get_all_cleared_targets`. -/
def get_all_cleared_targets (lowercase : Bool) (corpus : Corpus) :
    List PyStr × List (PyStr × String) :=
  (globTxt corpus).foldl
    (fun st f => processMatches st (basenameOf f.path)
      (cleared_targets_file_matches lowercase f)) ([], [])

end EventTargets

namespace ScriptedLocalisation

/-- A file matched by the non-recursive glob
`common/scripted_localisation/*.txt`. -/
def isSLDirFile (p : String) : Bool :=
  let pre := "common/scripted_localisation/".toList
  pre.isPrefixOf p.toList
  && !(substr "/".toList (p.toList.drop pre.length))
  && strEndsWith ".txt" p

/-- A file matched by the glob `common/scripted_guis/*.txt`. -/
def isScriptedGuisFile (p : String) : Bool :=
  let pre := "common/scripted_guis/".toList
  pre.isPrefixOf p.toList
  && !(substr "/".toList (p.toList.drop pre.length))
  && strEndsWith ".txt" p

/-- Matches contributed by one file in
`ScriptedLocalisation.get_all_defined_localisations`: skip checks (including
the French localisation file), then the `name\s*=\s*([a-zA-Z_0-9]+)` pattern
guarded by `defined_text`/`name =` containment. -/
def defined_loc_file_matches (lowercase : Bool) (f : FileEntry) : List PyStr :=
  if should_skip_file f.path then []
  else if strSub "00_scripted_localisation_FR_loc" f.path then []
  else
    let text := (FileOpener.open_text_file f.content lowercase).toList
    if substr "defined_text".toList text && substr "name =".toList text then
      findallNameDef text
    else []

/-- `ScriptedLocalisation.get_all_defined_localisations`. -/
def get_all_defined_localisations (lowercase : Bool) (corpus : Corpus) :
    List PyStr × List (PyStr × String) :=
  (corpus.filter (fun f => isSLDirFile f.path)).foldl
    (fun st f => processMatches st (basenameOf f.path)
      (defined_loc_file_matches lowercase f)) ([], [])

/-- The corpus scanned by `get_all_used_localisations`: `.gui` files, `.yml`
files, then `common/scripted_guis/*.txt`. -/
def used_loc_files (corpus : Corpus) : Corpus :=
  corpus.filter (fun f => strEndsWith ".gui" f.path)
  ++ corpus.filter (fun f => strEndsWith ".yml" f.path)
  ++ corpus.filter (fun f => isScriptedGuisFile f.path)

/-- One file of `get_all_used_localisations`: skip checks, then for each
searched name not yet found, plain substring containment registers the name
with the current file. -/
def used_loc_file_step (search_names : List PyStr)
    (st : List PyStr × List (PyStr × String)) (f : FileEntry)
    (lowercase : Bool) : List PyStr × List (PyStr × String) :=
  if should_skip_file f.path then st
  else if strSub "scripted_localisation" f.path then st
  else
    let text := (FileOpener.open_text_file f.content lowercase).toList
    search_names.foldl (fun st name =>
      if st.1.contains name then st
      else if substr name text then
        (st.1 ++ [name], dictSet st.2 name (basenameOf f.path))
      else st) st

/-- `ScriptedLocalisation.get_all_used_localisations`; `defined_names` is the
iteration order of the Python set of defined names. -/
def get_all_used_localisations (corpus : Corpus) (defined_names : List PyStr)
    (lowercase : Bool) : List PyStr × List (PyStr × String) :=
  let search_names :=
    if lowercase then dedupFirst (defined_names.map pyLower) else defined_names
  (used_loc_files corpus).foldl
    (fun st f => used_loc_file_step search_names st f lowercase) ([], [])

end ScriptedLocalisation

/-! ### The validators -/

/-- The shared scan of both `get_full_path` variants: first file (in the given
order) whose basename matches, that is not skipped, and whose content passes
the containment test; a read error is caught and treated as no match. -/
def locateFile (bn : String) (pred : String → Bool) : Corpus → Option String
  | [] => none
  | f :: rest =>
    if basenameOf f.path == bn && !should_skip_file f.path &&
       (match f.content with | some c => pred c | none => false) then
      some f.path
    else locateFile bn pred rest

namespace Validator

set_option linter.unusedVariables false in
/-- `Validator.log` of both validators: the console sees `display_msg`, the
stored line always has the ANSI codes stripped (`use_colors` only affects the
console rendering, `log_display`). -/
def log (use_colors : Bool) (output_lines : List String) (message : String) :
    List String :=
  output_lines ++ [stripAnsiS message]

/-- The console rendering of `Validator.log` (not stored). -/
def log_display (use_colors : Bool) (message : String) : String :=
  if use_colors then message else stripAnsiS message

/-- Python `sep.join(parts)`. -/
def pyJoin (sep : PyStr) : List PyStr → PyStr
  | [] => []
  | [x] => x
  | x :: xs => x ++ sep ++ pyJoin sep xs

/-- The text written by `Validator.save_output` when an output file is given:
`"\n".join(self.output_lines)`. -/
def save_output_content (output_lines : List String) : String :=
  (pyJoin "\n".toList (output_lines.map String.toList)).asString

/-- A whole run of the report sink: every message logged in order. -/
def run_log (use_colors : Bool) (msgs : List String) : List String :=
  msgs.foldl (log use_colors) []

/-- `Validator.get_full_path` of `validate_variables.py`: scans `**/*.txt`,
case-sensitive containment. -/
def get_full_path (corpus : Corpus) (basename item : String) : Option String :=
  locateFile basename (fun c => strSub item c) (globTxt corpus)

/-- `Validator.validate_cleared_flags`: the defect records of the
"cleared but never set" check. -/
def validate_cleared_flags (ft : String) (false_positives : List PyStr)
    (corpus : Corpus) : Except String (List Defect) := do
  let (cleared_flags, paths) ← Variables.get_all_cleared_flags ft false corpus
  let (set_flags, _) ← Variables.get_all_set_flags ft false corpus
  let cleared_flags :=
    DataCleaner.clear_false_positives_list cleared_flags false_positives
  pure (cleared_flags.foldl (fun results flag =>
    if set_flags.contains flag then results
    else
      -- paths[flag]; a missing key would raise, which is unreachable because
      -- every extracted flag records a path entry
      let basename := dictGetD paths flag ""
      let probe := "clr_" ++ ft ++ "_flag = " ++ flag.asString
      match get_full_path corpus basename probe with
      | some full_path =>
        results ++ [⟨flag, relpath full_path,
          find_line_number (readFile corpus full_path) probe false⟩]
      | none => results) [])

/-- `Validator.validate_missing_flags`: the defect records of the
"used but never set" check. -/
def validate_missing_flags (ft : String) (false_positives : List PyStr)
    (corpus : Corpus) : Except String (List Defect) := do
  let (used_flags, paths) ← Variables.get_all_used_flags ft false corpus
  let (set_flags, _) ← Variables.get_all_set_flags ft false corpus
  let used_flags :=
    DataCleaner.clear_false_positives_list used_flags false_positives
  pure (used_flags.foldl (fun results flag =>
    if set_flags.contains flag then results
    else
      let basename := dictGetD paths flag ""
      let probe := "has_" ++ ft ++ "_flag = " ++ flag.asString
      match get_full_path corpus basename probe with
      | some full_path =>
        results ++ [⟨flag, relpath full_path,
          find_line_number (readFile corpus full_path) probe false⟩]
      | none => results) [])

/-- `Validator.validate_unused_flags`: the defect records of the
"set but never used" check. -/
def validate_unused_flags (ft : String) (false_positives : List PyStr)
    (corpus : Corpus) : Except String (List Defect) := do
  let (set_flags, paths) ← Variables.get_all_set_flags ft false corpus
  let (used_flags, _) ← Variables.get_all_used_flags ft false corpus
  let set_flags :=
    DataCleaner.clear_false_positives_list set_flags false_positives
  pure (set_flags.foldl (fun results flag =>
    if used_flags.contains flag then results
    else
      let basename := dictGetD paths flag ""
      let probe := "set_" ++ ft ++ "_flag = " ++ flag.asString
      match get_full_path corpus basename probe with
      | some full_path =>
        results ++ [⟨flag, relpath full_path,
          find_line_number (readFile corpus full_path) probe false⟩]
      | none => results) [])

/-- `FALSE_POSITIVES` of `validate_unused_event_targets`. -/
def unused_targets_FALSE_POSITIVES : List PyStr :=
  ["wca_usa_floyd_olson".toList, "wca_usa_al_smith".toList,
   "target_value".toList]

/-- `potential_results` of `validate_unused_event_targets`: the filtered set
targets that are not used from script files. -/
def unused_targets_potential_results (corpus : Corpus) : List PyStr :=
  let (set_targets, _) := EventTargets.get_all_set_targets false corpus
  let used_targets := (EventTargets.get_all_used_targets false corpus).1
  let set_targets :=
    DataCleaner.clear_false_positives_list set_targets
      unused_targets_FALSE_POSITIVES
  set_targets.foldl (fun acc target =>
    if used_targets.contains target then acc else acc ++ [target]) []

/-- `targets_used_in_loc` of `validate_unused_event_targets`: the secondary
scan of `.yml` files for `[<target>.getname` / `[<target>.getadjective` in the
lowercased text, over the targets not yet encountered. -/
def targets_used_in_loc (corpus : Corpus) : List PyStr :=
  let potential_results := unused_targets_potential_results corpus
  (corpus.filter (fun f => strEndsWith ".yml" f.path)).foldl (fun acc f =>
    if should_skip_file f.path then acc
    else
      let text := (FileOpener.open_text_file f.content true).toList
      if substr ".get".toList text then
        let not_encountered_targets :=
          potential_results.filter (fun t => !(acc.contains t))
        acc ++ not_encountered_targets.filter (fun target =>
          substr ('[' :: target ++ ".getname".toList) text ||
          substr ('[' :: target ++ ".getadjective".toList) text)
      else acc) []

/-- `Validator.validate_unused_event_targets`: the defect records of the
"set but never used" event-target check, after the loc-function escape
hatch. -/
def validate_unused_event_targets (corpus : Corpus) : List Defect :=
  let (_, paths) := EventTargets.get_all_set_targets false corpus
  let potential_results := unused_targets_potential_results corpus
  let loc_used := targets_used_in_loc corpus
  potential_results.foldl (fun results target =>
    if loc_used.contains target then results
    else
      let basename := dictGetD paths target ""
      let probe1 := "save_event_target_as = " ++ target.asString
      let probe2 := "save_global_event_target_as = " ++ target.asString
      let full_path :=
        match get_full_path corpus basename probe1 with
        | some p => some p
        | none => get_full_path corpus basename probe2
      match full_path with
      | some p =>
        let line1 := find_line_number (readFile corpus p) probe1 false
        let line_num :=
          if line1 == 0 then find_line_number (readFile corpus p) probe2 false
          else line1
        results ++ [⟨target, relpath p, line_num⟩]
      | none => results) []

/-- `Validator.validate_missing_event_targets`: the defect records of the
"used but never set" event-target check. -/
def validate_missing_event_targets (corpus : Corpus) : List Defect :=
  let (used_targets, paths) := EventTargets.get_all_used_targets false corpus
  let set_targets := (EventTargets.get_all_set_targets false corpus).1
  let used_targets :=
    DataCleaner.clear_false_positives_list used_targets [".".toList]
  used_targets.foldl (fun results target =>
    if set_targets.contains target then results
    else
      let basename := dictGetD paths target ""
      let probe1 := "event_target:" ++ target.asString
      let probe2 := "has_event_target = " ++ target.asString
      let full_path :=
        match get_full_path corpus basename probe1 with
        | some p => some p
        | none => get_full_path corpus basename probe2
      match full_path with
      | some p =>
        let line1 := find_line_number (readFile corpus p) probe1 false
        let line_num :=
          if line1 == 0 then find_line_number (readFile corpus p) probe2 false
          else line1
        results ++ [⟨target, relpath p, line_num⟩]
      | none => results) []

end Validator

namespace SLValidator

/-- `Validator.get_full_path` of `validate_scripted_localisation.py`: scans
`**/*.txt` then `**/*.gui`, case-insensitive containment. -/
def get_full_path (corpus : Corpus) (basename item : String) : Option String :=
  locateFile basename (fun c => strSub (pyLowerS item) (pyLowerS c))
    (globTxt corpus ++ corpus.filter (fun f => strEndsWith ".gui" f.path))

/-- One iteration of the report loop of
`validate_missing_scripted_localisations`, on the state
`(results, reported)` and the enumerated pair `(i, loc)`. -/
def missing_sl_step (corpus : Corpus) (defined_locs_lower used_locs : List PyStr)
    (paths : List (PyStr × String)) (st : List Defect × List PyStr)
    (p : Nat × PyStr) : List Defect × List PyStr :=
  let i := p.1
  let loc := p.2
  if !(defined_locs_lower.contains loc) && !(st.2.contains loc) then
    -- `used_locs[i]` never raises: the filtered list is at most as long
    let original_loc := used_locs.getD i []
    let basename := dictGetD paths original_loc (dictGetD paths loc "unknown")
    match get_full_path corpus basename loc.asString with
    | some full_path =>
      (st.1 ++ [⟨loc, relpath full_path,
        find_line_number (readFile corpus full_path) loc.asString true⟩],
       st.2 ++ [loc])
    | none => st
  else st

/-- `Validator.validate_missing_scripted_localisations`: the defect records of
the "used but not defined" check (deduplicated through the `reported` set). -/
def validate_missing_scripted_localisations (false_positives : List PyStr)
    (corpus : Corpus) : List Defect :=
  let defined_locs :=
    (ScriptedLocalisation.get_all_defined_localisations false corpus).1
  let defined_names_set := dedupFirst defined_locs
  let (used_locs, paths) :=
    ScriptedLocalisation.get_all_used_localisations corpus defined_names_set
      false
  let defined_locs_lower := defined_locs.map pyLower
  let used_locs_lower := used_locs.map pyLower
  let used_locs_lower :=
    DataCleaner.clear_false_positives_list used_locs_lower false_positives
  (used_locs_lower.enum.foldl
    (missing_sl_step corpus defined_locs_lower used_locs paths) ([], [])).1

/-- One iteration of the report loop of
`validate_unused_scripted_localisations`, on the state `(results, reported)`
and the enumerated pair `(i, loc)`: the definition file is located through
`os.path.exists` on the joined path, falling back to a glob over
`common/scripted_localisation/*.txt`. -/
def unused_sl_step (corpus : Corpus) (used_locs_lower defined_locs : List PyStr)
    (paths : List (PyStr × String)) (st : List Defect × List PyStr)
    (p : Nat × PyStr) : List Defect × List PyStr :=
  let i := p.1
  let loc := p.2
  if !(used_locs_lower.contains loc) && !(st.2.contains loc) then
    let original_loc := defined_locs.getD i []
    let basename := dictGetD paths original_loc (dictGetD paths loc "unknown")
    let pattern := "common/scripted_localisation/" ++ basename
    let full_path :=
      if corpus.any (fun f => f.path == pattern) then some pattern
      else ((corpus.filter (fun f => ScriptedLocalisation.isSLDirFile f.path)).find?
        (fun f => basenameOf f.path == basename)).map (·.path)
    match full_path with
    | some p' =>
      (st.1 ++ [⟨loc, relpath p',
        find_line_number (readFile corpus p') ("name = " ++ loc.asString)
          true⟩],
       st.2 ++ [loc])
    | none => st
  else st

/-- `Validator.validate_unused_scripted_localisations`: the defect records of
the "defined but not used" check (deduplicated through the `reported` set). -/
def validate_unused_scripted_localisations (false_positives : List PyStr)
    (corpus : Corpus) : List Defect :=
  let (defined_locs, paths) :=
    ScriptedLocalisation.get_all_defined_localisations false corpus
  let used_locs :=
    (ScriptedLocalisation.get_all_used_localisations corpus
      (dedupFirst defined_locs) false).1
  let defined_locs_lower := defined_locs.map pyLower
  let used_locs_lower := used_locs.map pyLower
  let defined_locs_lower :=
    DataCleaner.clear_false_positives_list defined_locs_lower false_positives
  (defined_locs_lower.enum.foldl
    (unused_sl_step corpus used_locs_lower defined_locs paths) ([], [])).1

end SLValidator

/-- The exit-code logic of both `main` functions: path errors exit 1 before
any scan; afterwards `--strict` with at least one defect exits 1, everything
else exits 0. -/
def main_exit_code (path_exists path_is_dir strict : Bool)
    (errors_found : Nat) : Nat :=
  if !path_exists then 1
  else if !path_is_dir then 1
  else if strict && decide (0 < errors_found) then 1
  else 0

/-! ### Lemmas about the string model -/

theorem substr_iff {needle hay : PyStr} :
    substr needle hay = true ↔ needle <:+: hay := by
  induction hay with
  | nil =>
    simp only [substr, List.isEmpty_iff, List.infix_nil]
  | cons c rest ih =>
    simp only [substr, Bool.or_eq_true, List.isPrefixOf_iff_prefix, ih,
      List.infix_cons_iff]

theorem substr_of_middle (pre post needle : PyStr) :
    substr needle (pre ++ needle ++ post) = true := by
  exact substr_iff.mpr ⟨pre, post, rfl⟩

theorem substr_trans {a b c : PyStr} (h1 : substr a b = true)
    (h2 : substr b c = true) : substr a c = true :=
  substr_iff.mpr ((substr_iff.mp h1).trans (substr_iff.mp h2))

theorem substr_pyLower {needle hay : PyStr} (h : substr needle hay = true) :
    substr (pyLower needle) (pyLower hay) = true :=
  substr_iff.mpr (List.IsInfix.map _ (substr_iff.mp h))

/-! ### Lemmas about the false-positive filter (claim C4) -/

theorem mem_fp_inner {fps : List PyStr} {acc : List PyStr} {k x : PyStr} :
    x ∈ fps.foldl (fun acc2 f => if substr f k then acc2 ++ [k] else acc2) acc
      ↔ x ∈ acc ∨ (x = k ∧ fps.any (fun f => substr f k) = true) := by
  induction fps generalizing acc with
  | nil => simp
  | cons f fs ih =>
    by_cases hf : substr f k = true
    · rw [List.foldl_cons, if_pos hf, ih]
      simp only [List.any_cons, Bool.or_eq_true, hf, List.mem_append,
        List.mem_singleton]
      tauto
    · rw [List.foldl_cons, if_neg hf, ih]
      simp only [List.any_cons, Bool.or_eq_true]
      tauto

theorem mem_fp_skip_list {input fps : List PyStr} {acc : List PyStr} {x : PyStr} :
    x ∈ input.foldl (fun acc k =>
        fps.foldl (fun acc2 f => if substr f k then acc2 ++ [k] else acc2) acc)
        acc
      ↔ x ∈ acc ∨ (x ∈ input ∧ fps.any (fun f => substr f x) = true) := by
  induction input generalizing acc with
  | nil => simp
  | cons k ks ih =>
    rw [List.foldl_cons, ih]
    rw [mem_fp_inner]
    simp only [List.mem_cons]
    constructor
    · rintro ((h | ⟨rfl, h2⟩) | ⟨h1, h2⟩)
      · exact Or.inl h
      · exact Or.inr ⟨Or.inl rfl, h2⟩
      · exact Or.inr ⟨Or.inr h1, h2⟩
    · rintro (h | ⟨rfl | h1, h2⟩)
      · exact Or.inl (Or.inl h)
      · exact Or.inl (Or.inr ⟨rfl, h2⟩)
      · exact Or.inr ⟨h1, h2⟩

theorem clear_false_positives_list_eq_filter (input fps : List PyStr) :
    DataCleaner.clear_false_positives_list input fps
      = input.filter (fun s => !(fps.any (fun f => substr f s))) := by
  unfold DataCleaner.clear_false_positives_list
  by_cases hfps : 0 < fps.length
  · rw [if_pos hfps]
    refine List.filter_congr ?_
    intro x hx
    congr 1
    by_cases hm : fps.any (fun f => substr f x) = true
    · rw [hm]
      have hmem : x ∈ input.foldl (fun acc k =>
          fps.foldl (fun acc2 f => if substr f k then acc2 ++ [k] else acc2) acc)
          [] := mem_fp_skip_list.mpr (Or.inr ⟨hx, hm⟩)
      simpa using hmem
    · have hm' : fps.any (fun f => substr f x) = false :=
        Bool.eq_false_iff.mpr hm
      rw [hm']
      have hmem : x ∉ input.foldl (fun acc k =>
          fps.foldl (fun acc2 f => if substr f k then acc2 ++ [k] else acc2) acc)
          [] := by
        intro hcontra
        rcases mem_fp_skip_list.mp hcontra with h | ⟨_, h⟩
        · simp at h
        · exact hm h
      simpa using hmem
  · rw [if_neg hfps]
    have hnil : fps = [] := by
      cases fps with
      | nil => rfl
      | cons a l => exact absurd (Nat.succ_pos _) hfps
    subst hnil
    simp

theorem dictContains_iff {d : List (PyStr × String)} {k : PyStr} :
    dictContains d k = true ↔ k ∈ d.map Prod.fst := by
  induction d with
  | nil => simp [dictContains, dictGet?]
  | cons p rest ih =>
    obtain ⟨k', v'⟩ := p
    by_cases hk : k' = k
    · subst hk
      simp [dictContains, dictGet?]
    · have : dictContains ((k', v') :: rest) k = dictContains rest k := by
        simp [dictContains, dictGet?, if_neg hk]
      rw [this, ih]
      simp only [List.map_cons, List.mem_cons]
      constructor
      · exact Or.inr
      · rintro (h | h)
        · exact absurd h.symm hk
        · exact h

theorem dictPop_eq_filter {d : List (PyStr × String)} {k : PyStr}
    (h : (d.map Prod.fst).Nodup) :
    dictPop d k = d.filter (fun p => !(p.1 == k)) := by
  induction d with
  | nil => simp [dictPop]
  | cons p rest ih =>
    obtain ⟨k', v'⟩ := p
    simp only [List.map_cons, List.nodup_cons] at h
    by_cases hk : k' = k
    · subst hk
      rw [dictPop, if_pos rfl, List.filter_cons]
      have hcond : (!((k', v').1 == k')) = false := by simp
      rw [hcond]
      simp only [Bool.false_eq_true, if_false]
      symm
      refine List.filter_eq_self.mpr (fun p hp => ?_)
      simp only [Bool.not_eq_eq_eq_not, Bool.not_true, beq_eq_false_iff_ne, ne_eq]
      intro hcontra
      exact h.1 (hcontra ▸ List.mem_map_of_mem Prod.fst hp)
    · rw [dictPop, if_neg hk, ih h.2, List.filter_cons]
      have hcond : (!((k', v').1 == k)) = true := by simp [hk]
      rw [hcond]
      simp

theorem popFold_eq_filter (sl : List PyStr) :
    ∀ (d : List (PyStr × String)), (d.map Prod.fst).Nodup →
    sl.foldl (fun d i => if dictContains d i then dictPop d i else d) d
      = d.filter (fun p => !(sl.contains p.1)) := by
  induction sl with
  | nil =>
    intro d _
    simp
  | cons i rest ih =>
    intro d hnd
    rw [List.foldl_cons]
    have hd1 : (if dictContains d i then dictPop d i else d)
        = d.filter (fun p => !(p.1 == i)) := by
      by_cases hc : dictContains d i = true
      · rw [if_pos hc]
        exact dictPop_eq_filter hnd
      · rw [if_neg hc]
        symm
        refine List.filter_eq_self.mpr (fun p hp => ?_)
        simp only [Bool.not_eq_eq_eq_not, Bool.not_true, beq_eq_false_iff_ne,
          ne_eq]
        intro hcontra
        exact hc (dictContains_iff.mpr (hcontra ▸ List.mem_map_of_mem Prod.fst hp))
    rw [hd1]
    have hnd1 : ((d.filter (fun p => !(p.1 == i))).map Prod.fst).Nodup :=
      ((d.filter_sublist (p := fun p => !(p.1 == i))).map Prod.fst).nodup hnd
    rw [ih _ hnd1, List.filter_filter]
    refine List.filter_congr (fun p _ => ?_)
    simp only [List.contains_cons, Bool.not_or]
    exact Bool.and_comm _ _

theorem clear_false_positives_dict_eq_filter
    (d : List (PyStr × String)) (fps : List PyStr)
    (h : (d.map Prod.fst).Nodup) :
    DataCleaner.clear_false_positives_dict d fps
      = d.filter (fun p => !(fps.any (fun f => substr f p.1))) := by
  unfold DataCleaner.clear_false_positives_dict
  by_cases hfps : 0 < fps.length
  · rw [if_pos hfps]
    rw [popFold_eq_filter _ _ h]
    refine List.filter_congr (fun p hp => ?_)
    congr 1
    by_cases hm : fps.any (fun f => substr f p.1) = true
    · rw [hm]
      have hmem : p.1 ∈ (d.map Prod.fst).foldl (fun acc k =>
          fps.foldl (fun acc2 f => if substr f k then acc2 ++ [k] else acc2) acc)
          [] :=
        mem_fp_skip_list.mpr (Or.inr ⟨List.mem_map_of_mem Prod.fst hp, hm⟩)
      simpa using hmem
    · rw [Bool.eq_false_iff.mpr hm]
      have hmem : p.1 ∉ (d.map Prod.fst).foldl (fun acc k =>
          fps.foldl (fun acc2 f => if substr f k then acc2 ++ [k] else acc2) acc)
          [] := by
        intro hcontra
        rcases mem_fp_skip_list.mp hcontra with hx | ⟨_, hx⟩
        · simp at hx
        · exact hm hx
      simpa using hmem
  · rw [if_neg hfps]
    have hnil : fps = [] := by
      cases fps with
      | nil => rfl
      | cons a l => exact absurd (Nat.succ_pos _) hfps
    subst hnil
    simp

/-- C4: `clear_false_positives_partial_match` (both the list and the dict
branch) removes exactly the symbols containing some rule as a substring,
leaves every other symbol (and the dict values and order) untouched, and is
idempotent.  Keys of a Python dict are unique, which the dict part assumes. -/
theorem C4_false_positive_filter (input fps : List PyStr) :
    DataCleaner.clear_false_positives_list input fps
      = input.filter (fun s => !(fps.any (fun f => substr f s)))
    ∧ DataCleaner.clear_false_positives_list
        (DataCleaner.clear_false_positives_list input fps) fps
      = DataCleaner.clear_false_positives_list input fps
    ∧ (∀ d : List (PyStr × String), (d.map Prod.fst).Nodup →
        DataCleaner.clear_false_positives_dict d fps
          = d.filter (fun p => !(fps.any (fun f => substr f p.1)))
        ∧ DataCleaner.clear_false_positives_dict
            (DataCleaner.clear_false_positives_dict d fps) fps
          = DataCleaner.clear_false_positives_dict d fps) := by
  refine ⟨clear_false_positives_list_eq_filter input fps, ?_, ?_⟩
  · rw [clear_false_positives_list_eq_filter input fps,
      clear_false_positives_list_eq_filter, List.filter_filter]
    refine List.filter_congr (fun s _ => ?_)
    exact Bool.and_self _
  · intro d hnd
    have h1 := clear_false_positives_dict_eq_filter d fps hnd
    refine ⟨h1, ?_⟩
    have hnd1 : ((DataCleaner.clear_false_positives_dict d fps).map
        Prod.fst).Nodup := by
      rw [h1]
      exact ((d.filter_sublist).map Prod.fst).nodup hnd
    rw [clear_false_positives_dict_eq_filter _ fps hnd1, h1, List.filter_filter]
    refine List.filter_congr (fun s _ => ?_)
    exact Bool.and_self _

/-- Witness for C4 at a concrete input: `"ab"` contains the rule `"b"` and is
removed, `"cd"` does not and survives, in both branches. -/
theorem C4_false_positive_filter_witness :
    DataCleaner.clear_false_positives_list
      ["ab".toList, "cd".toList] ["b".toList] = ["cd".toList]
    ∧ DataCleaner.clear_false_positives_dict
        [("ab".toList, "f1.txt"), ("cd".toList, "f2.txt")] ["b".toList]
      = [("cd".toList, "f2.txt")] := by
  have h := C4_false_positive_filter ["ab".toList, "cd".toList] ["b".toList]
  have hd := (h.2.2 [("ab".toList, "f1.txt"), ("cd".toList, "f2.txt")]
    (by decide)).1
  constructor
  · rw [h.1]; decide
  · rw [hd]; decide

/-- C8: with the root path present and a directory, the exit code is 1 exactly
when `--strict` was passed and at least one defect was counted, and 0
otherwise. -/
theorem C8_strict_exit_code (path_exists path_is_dir strict : Bool)
    (errors_found : Nat) (h1 : path_exists = true) (h2 : path_is_dir = true) :
    (main_exit_code path_exists path_is_dir strict errors_found = 1
      ↔ strict = true ∧ 1 ≤ errors_found)
    ∧ (main_exit_code path_exists path_is_dir strict errors_found = 0
      ↔ ¬(strict = true ∧ 1 ≤ errors_found)) := by
  subst h1 h2
  unfold main_exit_code
  cases strict
  · simp
  · by_cases he : 0 < errors_found
    · simp only [he]
      simp [Nat.one_le_iff_ne_zero]
      omega
    · simp only [he]
      simp [Nat.one_le_iff_ne_zero]
      omega

/-- Witness for C8: strict mode with two defects exits 1 (and not 0). -/
theorem C8_strict_exit_code_witness :
    (main_exit_code true true true 2 = 1 ↔ true = true ∧ 1 ≤ 2)
    ∧ (main_exit_code true true true 2 = 0 ↔ ¬(true = true ∧ 1 ≤ 2)) :=
  C8_strict_exit_code true true true 2 rfl rfl

/-! ### Claims C9 and C5: invalid flag type, unreadable files -/

/-- Does an `Except` result hold a value (no exception was raised)? -/
def exceptIsOk {α : Type} : Except String α → Bool
  | .ok _ => true
  | .error _ => false

/-- C9: the three flag extractors raise `ValueError` exactly when the flag
type is not `country`/`state`/`global`, and they do so before scanning: the
error does not depend on the corpus and no occurrence is extracted. -/
theorem C9_invalid_flag_type (ft : String) (lc : Bool) (c : Corpus) :
    (exceptIsOk (Variables.get_all_used_flags ft lc c) = flagTypeValid ft)
    ∧ (exceptIsOk (Variables.get_all_set_flags ft lc c) = flagTypeValid ft)
    ∧ (exceptIsOk (Variables.get_all_cleared_flags ft lc c) = flagTypeValid ft)
    ∧ (flagTypeValid ft = false →
        Variables.get_all_used_flags ft lc c
          = .error "Unsupported flag value passed. Expected country, state, global"
        ∧ Variables.get_all_set_flags ft lc c
          = .error "Unsupported flag value passed. Expected country, state, global"
        ∧ Variables.get_all_cleared_flags ft lc c
          = .error "Unsupported flag value passed. Expected country, state, global") := by
  unfold Variables.get_all_used_flags Variables.get_all_set_flags
    Variables.get_all_cleared_flags
  by_cases hft : flagTypeValid ft = true
  · rw [hft]
    simp [if_pos hft, exceptIsOk]
  · have hft' : flagTypeValid ft = false := Bool.eq_false_iff.mpr hft
    rw [hft']
    simp [if_neg hft, exceptIsOk]

/-- Witness for C9: the flag type `"continent"` is rejected independently of
the corpus, with the exact `ValueError` message. -/
theorem C9_invalid_flag_type_witness :
    Variables.get_all_used_flags "continent" true
        [⟨"a.txt", some "has_country_flag = x\n"⟩]
      = .error "Unsupported flag value passed. Expected country, state, global" :=
  ((C9_invalid_flag_type "continent" true
    [⟨"a.txt", some "has_country_flag = x\n"⟩]).2.2.2 (by decide)).1

/-- A step of a fold that leaves the state unchanged on `x` can drop `x`. -/
theorem foldl_middle_id {α β : Type} (step : β → α → β) (x : α)
    (hx : ∀ st, step st x = st) (l1 l2 : List α) (st : β) :
    (l1 ++ x :: l2).foldl step st = (l1 ++ l2).foldl step st := by
  rw [List.foldl_append, List.foldl_append, List.foldl_cons, hx]

theorem set_flags_file_matches_none (ft : String) (lc : Bool) (name : String) :
    Variables.set_flags_file_matches ft lc ⟨name, none⟩ = [] := by
  unfold Variables.set_flags_file_matches
  by_cases hs : should_skip_file name = true
  · simp [hs]
  · rw [if_neg hs]
    have htext : (FileOpener.open_text_file none lc).toList = [] := by
      cases lc <;> rfl
    rw [htext]
    have hne : substr ("set_" ++ ft ++ "_flag =").toList [] = false := by
      have : ("set_" ++ ft ++ "_flag =").toList
          = 's' :: 'e' :: 't' :: '_' :: (ft.toList ++ "_flag =".toList) := by
        show ("set_" ++ ft ++ "_flag =").data = _
        rw [String.data_append, String.data_append]
        rfl
      rw [this]
      rfl
    simp only [hne]
    simp

theorem used_targets_file_matches_none (lc : Bool) (name : String) :
    EventTargets.used_targets_file_matches lc ⟨name, none⟩ = [] := by
  unfold EventTargets.used_targets_file_matches
  by_cases hs : should_skip_file name = true
  · simp [hs]
  · rw [if_neg hs]
    have htext : (FileOpener.open_text_file none lc).toList = [] := by
      cases lc <;> rfl
    rw [htext]
    by_cases ht : strSub "tag_aliases" name = true
    · rw [if_pos ht]
      rfl
    · rw [if_neg ht]
      rfl

/-- C5: reading a corpus file never aborts the scan: a read/decode error is
caught and yields the empty string, so the unreadable file contributes zero
occurrences and the extraction over the remaining corpus is unaffected. -/
theorem C5_unreadable_file_skipped (lc : Bool) (ft : String) (name : String)
    (c1 c2 : Corpus) :
    FileOpener.open_text_file none lc = ""
    ∧ Variables.get_all_set_flags ft lc (c1 ++ ⟨name, none⟩ :: c2)
        = Variables.get_all_set_flags ft lc (c1 ++ c2)
    ∧ EventTargets.get_all_used_targets lc (c1 ++ ⟨name, none⟩ :: c2)
        = EventTargets.get_all_used_targets lc (c1 ++ c2) := by
  refine ⟨by cases lc <;> rfl, ?_, ?_⟩
  · unfold Variables.get_all_set_flags
    by_cases hft : flagTypeValid ft = true
    · rw [if_pos hft, if_pos hft]
      congr 1
      unfold globTxt
      rw [List.filter_append, List.filter_append, List.filter_cons]
      by_cases htxt : strEndsWith ".txt" (FileEntry.mk name none).path = true
      · simp only [htxt, if_pos]
        rw [foldl_middle_id _ _ (fun st => by
          rw [set_flags_file_matches_none]
          rfl)]
      · simp only [Bool.eq_false_iff.mpr htxt]
        simp
    · rw [if_neg hft, if_neg hft]
  · unfold EventTargets.get_all_used_targets
    unfold globTxt
    rw [List.filter_append, List.filter_append, List.filter_cons]
    by_cases htxt : strEndsWith ".txt" (FileEntry.mk name none).path = true
    · simp only [htxt, if_pos]
      rw [foldl_middle_id _ _ (fun st => by
        rw [used_targets_file_matches_none]
        rfl)]
    · simp only [Bool.eq_false_iff.mpr htxt]
      simp

/-! ### Claim C10: ANSI stripping of the report sink -/

theorem isSGRAt_esc {l : PyStr} (h : isSGRAt l = true) : '\x1b' ∈ l := by
  match l with
  | [] => simp [isSGRAt] at h
  | [c] => simp [isSGRAt] at h
  | c1 :: c2 :: rest =>
    unfold isSGRAt at h
    simp only [Bool.and_eq_true, beq_iff_eq] at h
    rw [h.1.1.1]
    exact List.mem_cons_self _ _

theorem hasAnsi_esc {l : PyStr} (h : hasAnsi l = true) : '\x1b' ∈ l := by
  induction l with
  | nil => simp [hasAnsi] at h
  | cons c rest ih =>
    unfold hasAnsi at h
    rcases Bool.or_eq_true _ _ |>.mp h with h1 | h2
    · exact isSGRAt_esc h1
    · exact List.mem_cons_of_mem _ (ih h2)

theorem hasAnsi_eq_false {l : PyStr} (h : '\x1b' ∉ l) : hasAnsi l = false := by
  cases hh : hasAnsi l with
  | false => rfl
  | true => exact absurd (hasAnsi_esc hh) h

theorem mem_pyJoin {c : Char} {sep : PyStr} {ls : List PyStr}
    (h : c ∈ Validator.pyJoin sep ls) : c ∈ sep ∨ ∃ l ∈ ls, c ∈ l := by
  induction ls with
  | nil => simp [Validator.pyJoin] at h
  | cons x xs ih =>
    cases xs with
    | nil =>
      simp only [Validator.pyJoin] at h
      exact Or.inr ⟨x, List.mem_cons_self _ _, h⟩
    | cons y ys =>
      rw [show Validator.pyJoin sep (x :: y :: ys)
          = x ++ sep ++ Validator.pyJoin sep (y :: ys) from rfl] at h
      rcases List.mem_append.mp h with h1 | h2
      · rcases List.mem_append.mp h1 with hx | hs
        · exact Or.inr ⟨x, List.mem_cons_self _ _, hx⟩
        · exact Or.inl hs
      · rcases ih h2 with hs | ⟨l, hl, hc⟩
        · exact Or.inl hs
        · exact Or.inr ⟨l, List.mem_cons_of_mem _ hl, hc⟩

theorem foldl_append_singleton_map {α β : Type} (f : α → β) (l : List α)
    (init : List β) :
    l.foldl (fun acc x => acc ++ [f x]) init = init ++ l.map f := by
  induction l generalizing init with
  | nil => simp
  | cons x xs ih =>
    rw [List.foldl_cons, ih, List.map_cons]
    simp

/-- C10 (amended): every line stored for file output is the message with one
left-to-right pass of ANSI-SGR removal applied, independently of
`use_colors`; and whenever the stripped lines contain no residual escape
character (removal can splice one together, see the counterexample), the
persisted file text contains no ANSI color sequence. -/
theorem C10_log_strips_ansi (use_colors : Bool) (msgs : List String) :
    Validator.run_log use_colors msgs = msgs.map stripAnsiS
    ∧ ((∀ m ∈ msgs, '\x1b' ∉ (stripAnsiS m).toList) →
        hasAnsi (Validator.save_output_content
          (Validator.run_log use_colors msgs)).toList = false) := by
  have hrun : Validator.run_log use_colors msgs = msgs.map stripAnsiS := by
    unfold Validator.run_log
    have : Validator.log use_colors = fun acc x => acc ++ [stripAnsiS x] := rfl
    rw [this, foldl_append_singleton_map]
    simp
  refine ⟨hrun, fun hesc => ?_⟩
  rw [hrun]
  unfold Validator.save_output_content
  rw [List.toList_asString]
  refine hasAnsi_eq_false (fun hmem => ?_)
  rcases mem_pyJoin hmem with hs | ⟨l, hl, hc⟩
  · simp at hs
  · rw [List.map_map] at hl
    rcases List.mem_map.mp hl with ⟨m, hm, rfl⟩
    exact hesc m hm hc

/-- Witness for C10 at a concrete input: a red error line is stored without
its color codes and the saved file holds plain text. -/
theorem C10_log_strips_ansi_witness :
    Validator.run_log true [Colors.RED ++ "2 issues found" ++ Colors.ENDC]
      = ["2 issues found"]
    ∧ hasAnsi (Validator.save_output_content
        (Validator.run_log true
          [Colors.RED ++ "2 issues found" ++ Colors.ENDC])).toList = false := by
  have h := C10_log_strips_ansi true
    [Colors.RED ++ "2 issues found" ++ Colors.ENDC]
  refine ⟨?_, h.2 (by decide)⟩
  rw [h.1]
  decide

/-- C10 counterexample: one pass of `re.sub` can splice two fragments into a
new ANSI sequence, so the claim that the stored line (and hence the saved
file) never contains ANSI codes fails on
`message = "\x1b\x1b[31m[31m"`, whose stored form is `"\x1b[31m"`. -/
theorem C10_ansi_in_saved_output_counterexample :
    Validator.log true [] "\x1b\x1b[31m[31m" = ["\x1b[31m"]
    ∧ hasAnsi (Validator.save_output_content
        (Validator.log true [] "\x1b\x1b[31m[31m")).toList = true := by
  decide

/-! ### Claim C6: token terminators of the extraction patterns -/

theorem mem_tokenRun_not_excl {excl : List Char} {l : PyStr} {c : Char}
    (h : c ∈ tokenRun excl l) : excl.contains c = false := by
  have := List.mem_takeWhile_imp h
  simpa using this

theorem mem_bracedRest_not_excl {excl flagLit : List Char} {text : PyStr}
    {tok : PyStr} {n : Nat} (h : bracedRest excl flagLit text = some (tok, n)) :
    ∀ c ∈ tok, excl.contains c = false := by
  induction text generalizing tok n with
  | nil => simp [bracedRest] at h
  | cons x rest ih =>
    unfold bracedRest at h
    by_cases hp : flagLit.isPrefixOf (x :: rest) = true
    · rw [if_pos hp] at h
      by_cases htok :
          0 < (tokenRun excl ((x :: rest).drop flagLit.length)).length
      · rw [if_pos htok] at h
        cases hf : findCharIdx '}'
            ((x :: rest).drop (flagLit.length +
              (tokenRun excl ((x :: rest).drop flagLit.length)).length)) with
        | some p =>
          rw [hf] at h
          simp only [Option.some.injEq, Prod.mk.injEq] at h
          intro c hc
          rw [← h.1] at hc
          exact mem_tokenRun_not_excl hc
        | none =>
          rw [hf] at h
          cases hrec : bracedRest excl flagLit rest with
          | some r =>
            rw [hrec, Option.map_some'] at h
            simp only [Option.some.injEq, Prod.mk.injEq] at h
            intro c hc
            rw [← h.1] at hc
            exact ih (by rw [hrec]) c hc
          | none =>
            rw [hrec, Option.map_none'] at h
            exact absurd h (by simp)
      · rw [if_neg htok] at h
        cases hrec : bracedRest excl flagLit rest with
        | some r =>
          rw [hrec, Option.map_some'] at h
          simp only [Option.some.injEq, Prod.mk.injEq] at h
          intro c hc
          rw [← h.1] at hc
          exact ih (by rw [hrec]) c hc
        | none =>
          rw [hrec, Option.map_none'] at h
          exact absurd h (by simp)
    · rw [if_neg hp] at h
      cases hrec : bracedRest excl flagLit rest with
      | some r =>
        rw [hrec, Option.map_some'] at h
        simp only [Option.some.injEq, Prod.mk.injEq] at h
        intro c hc
        rw [← h.1] at hc
        exact ih (by rw [hrec]) c hc
      | none =>
        rw [hrec, Option.map_none'] at h
        exact absurd h (by simp)

theorem mem_findallLitTokenGo_not_excl {lit excl : List Char} :
    ∀ {fuel : Nat} {text : PyStr} {tok : PyStr},
    tok ∈ findallLitTokenGo lit excl fuel text →
    ∀ c ∈ tok, excl.contains c = false := by
  intro fuel
  induction fuel with
  | zero => intro text tok h; simp [findallLitTokenGo] at h
  | succ n ih =>
    intro text tok h
    match text with
    | [] => simp [findallLitTokenGo] at h
    | x :: rest =>
      unfold findallLitTokenGo at h
      by_cases hp : lit.isPrefixOf (x :: rest) = true
      · rw [if_pos hp] at h
        by_cases htok : 0 < (tokenRun excl ((x :: rest).drop lit.length)).length
        · rw [if_pos htok] at h
          rcases List.mem_cons.mp h with rfl | hmem
          · exact fun c hc => mem_tokenRun_not_excl hc
          · exact ih hmem
        · rw [if_neg htok] at h
          exact ih h
      · rw [if_neg hp] at h
        exact ih h

theorem mem_findallLitToken_not_excl {lit excl : List Char} {text : PyStr}
    {tok : PyStr} (h : tok ∈ findallLitToken lit excl text) :
    ∀ c ∈ tok, excl.contains c = false :=
  mem_findallLitTokenGo_not_excl h

theorem mem_findallBracedClsGo_not_excl {cls lit excl flagLit : List Char} :
    ∀ {fuel : Nat} {text : PyStr} {tok : PyStr},
    tok ∈ findallBracedClsGo cls lit excl flagLit fuel text →
    ∀ c ∈ tok, excl.contains c = false := by
  intro fuel
  induction fuel with
  | zero => intro text tok h; simp [findallBracedClsGo] at h
  | succ n ih =>
    intro text tok h
    match text with
    | [] => simp [findallBracedClsGo] at h
    | x :: rest =>
      unfold findallBracedClsGo at h
      by_cases hp : (cls.contains x && lit.isPrefixOf rest) = true
      · rw [if_pos hp] at h
        cases hb : bracedRest excl flagLit (rest.drop lit.length) with
        | some r =>
          rw [hb] at h
          rcases List.mem_cons.mp h with rfl | hmem
          · exact mem_bracedRest_not_excl hb
          · exact ih hmem
        | none =>
          rw [hb] at h
          exact ih h
      · rw [if_neg hp] at h
        exact ih h

theorem mem_findallBracedLitGo_not_excl {openLit excl flagLit : List Char} :
    ∀ {fuel : Nat} {text : PyStr} {tok : PyStr},
    tok ∈ findallBracedLitGo openLit excl flagLit fuel text →
    ∀ c ∈ tok, excl.contains c = false := by
  intro fuel
  induction fuel with
  | zero => intro text tok h; simp [findallBracedLitGo] at h
  | succ n ih =>
    intro text tok h
    match text with
    | [] => simp [findallBracedLitGo] at h
    | x :: rest =>
      unfold findallBracedLitGo at h
      by_cases hp : openLit.isPrefixOf (x :: rest) = true
      · rw [if_pos hp] at h
        cases hb : bracedRest excl flagLit ((x :: rest).drop openLit.length) with
        | some r =>
          rw [hb] at h
          rcases List.mem_cons.mp h with rfl | hmem
          · exact mem_bracedRest_not_excl hb
          · exact ih hmem
        | none =>
          rw [hb] at h
          exact ih h
      · rw [if_neg hp] at h
        exact ih h

theorem processMatches_fst (st : List PyStr × List (PyStr × String))
    (bn : String) (ms : List PyStr) :
    (processMatches st bn ms).1 = st.1 ++ ms := by
  induction ms generalizing st with
  | nil => simp [processMatches]
  | cons m rest ih =>
    unfold processMatches at ih ⊢
    rw [List.foldl_cons, ih]
    simp

theorem mem_fold_processMatches {files : Corpus}
    {matchesOf : FileEntry → List PyStr}
    {st : List PyStr × List (PyStr × String)} {s : PyStr} :
    s ∈ (files.foldl (fun st f =>
        processMatches st (basenameOf f.path) (matchesOf f)) st).1
      ↔ s ∈ st.1 ∨ ∃ f ∈ files, s ∈ matchesOf f := by
  induction files generalizing st with
  | nil => simp
  | cons f fs ih =>
    rw [List.foldl_cons, ih, processMatches_fst]
    simp only [List.mem_append, List.mem_cons]
    constructor
    · rintro ((h | h) | ⟨g, hg, hs⟩)
      · exact Or.inl h
      · exact Or.inr ⟨f, Or.inl rfl, h⟩
      · exact Or.inr ⟨g, Or.inr hg, hs⟩
    · rintro (h | ⟨g, rfl | hg, hs⟩)
      · exact Or.inl (Or.inl h)
      · exact Or.inl (Or.inr hs)
      · exact Or.inr ⟨g, hg, hs⟩

theorem mem_used_flags_file_matches_terminated {ft : String} {lc : Bool}
    {f : FileEntry} {s : PyStr} (h : s ∈ Variables.used_flags_file_matches ft lc f) :
    ' ' ∉ s ∧ '\t' ∉ s ∧ '\n' ∉ s := by
  unfold Variables.used_flags_file_matches at h
  by_cases hs : should_skip_file f.path = true
  · rw [if_pos hs] at h
    simp at h
  · rw [if_neg hs] at h
    by_cases hg : (substr ("has_" ++ ft ++ "_flag =").toList
        (FileOpener.open_text_file f.content lc).toList ||
      substr ("modify_" ++ ft ++ "_flag =").toList
        (FileOpener.open_text_file f.content lc).toList) = true
    · rw [if_pos hg] at h
      rcases List.mem_append.mp h with h1 | h2
      · have hx := mem_findallLitToken_not_excl h1
        refine ⟨fun hc => ?_, fun hc => ?_, fun hc => ?_⟩ <;>
          simpa using hx _ hc
      · have hx := mem_findallBracedClsGo_not_excl h2
        refine ⟨fun hc => ?_, fun hc => ?_, fun hc => ?_⟩ <;>
          simpa using hx _ hc
    · rw [if_neg hg] at h
      simp at h

theorem mem_used_targets_file_matches_terminated {lc : Bool}
    {f : FileEntry} {s : PyStr}
    (h : s ∈ EventTargets.used_targets_file_matches lc f) :
    ' ' ∉ s ∧ '\t' ∉ s ∧ '\n' ∉ s := by
  unfold EventTargets.used_targets_file_matches at h
  by_cases hs : should_skip_file f.path = true
  · rw [if_pos hs] at h
    simp at h
  · rw [if_neg hs] at h
    by_cases ha : strSub "tag_aliases" f.path = true
    · rw [if_pos ha] at h
      by_cases hg : substr "global_event_target =".toList
          (FileOpener.open_text_file f.content lc).toList = true
      · rw [if_pos hg] at h
        have hx := mem_findallLitToken_not_excl h
        refine ⟨fun hc => ?_, fun hc => ?_, fun hc => ?_⟩ <;>
          simpa using hx _ hc
      · rw [if_neg hg] at h
        simp at h
    · rw [if_neg ha] at h
      rcases List.mem_append.mp h with h1 | h2
      · by_cases hg : substr "event_target:".toList
            (FileOpener.open_text_file f.content lc).toList = true
        · rw [if_pos hg] at h1
          have hx := mem_findallLitToken_not_excl h1
          refine ⟨fun hc => ?_, fun hc => ?_, fun hc => ?_⟩ <;>
            simpa using hx _ hc
        · rw [if_neg hg] at h1
          simp at h1
      · by_cases hg : substr "has_event_target =".toList
            (FileOpener.open_text_file f.content lc).toList = true
        · rw [if_pos hg] at h2
          have hx := mem_findallLitToken_not_excl h2
          refine ⟨fun hc => ?_, fun hc => ?_, fun hc => ?_⟩ <;>
            simpa using hx _ hc
        · rw [if_neg hg] at h2
          simp at h2

/-- C6 (amended): symbols captured by the flag-use and event-target-use
patterns never contain a space, a tab, or a newline (the characters excluded
by every capture class); braces, quotes and `#` can however appear in flag
captures, see the counterexample. -/
theorem C6_extracted_symbols_terminated (ft : String) (lc : Bool)
    (corpus : Corpus) (fl : List PyStr) (p : List (PyStr × String))
    (h : Variables.get_all_used_flags ft lc corpus = .ok (fl, p)) :
    (∀ s ∈ fl, ' ' ∉ s ∧ '\t' ∉ s ∧ '\n' ∉ s)
    ∧ (∀ s ∈ (EventTargets.get_all_used_targets lc corpus).1,
        ' ' ∉ s ∧ '\t' ∉ s ∧ '\n' ∉ s) := by
  constructor
  · intro s hsmem
    unfold Variables.get_all_used_flags at h
    by_cases hft : flagTypeValid ft = true
    · rw [if_pos hft] at h
      simp only [Except.ok.injEq] at h
      have h1 : fl = (List.foldl (fun st f =>
          processMatches st (basenameOf f.path)
            (Variables.used_flags_file_matches ft lc f)) ([], [])
          (globTxt corpus)).1 := by rw [h]
      rw [h1] at hsmem
      rcases mem_fold_processMatches.mp hsmem with hc | ⟨f, _, hf⟩
      · simp at hc
      · exact mem_used_flags_file_matches_terminated hf
    · rw [if_neg hft] at h
      exact absurd h (by simp)
  · intro s hsmem
    unfold EventTargets.get_all_used_targets at hsmem
    rcases mem_fold_processMatches.mp hsmem with hc | ⟨f, _, hf⟩
    · simp at hc
    · exact mem_used_targets_file_matches_terminated hf

/-- Witness for C6 at a concrete corpus: the captured flag `ghost` and target
`hero` contain no whitespace. -/
theorem C6_extracted_symbols_terminated_witness :
    ' ' ∉ "ghost".toList ∧ '\t' ∉ "ghost".toList ∧ '\n' ∉ "ghost".toList := by
  have h := C6_extracted_symbols_terminated "country" true
    [⟨"a.txt", some "has_country_flag = ghost\n"⟩]
    ["ghost".toList] [("ghost".toList, "a.txt")] (by rfl)
  exact h.1 "ghost".toList (by decide)

/-- C6 counterexample: the capture class of `has_country_flag = ([^ \t\n]+)`
does not exclude braces (nor quotes nor `#`), so the extracted symbol `x}y`
contains a brace, contradicting the claimed terminator set. -/
theorem C6_brace_in_symbol_counterexample :
    Variables.get_all_used_flags "country" true
        [⟨"a.txt", some "has_country_flag = x\x7dy\n"⟩]
      = .ok (["x\x7dy".toList], [("x\x7dy".toList, "a.txt")])
    ∧ '}' ∈ "x\x7dy".toList := by
  refine ⟨?_, by decide⟩
  rfl

/-! ### Claim C1: deduplication of the rendered defect lists -/

/-- Any fold whose step either leaves the state unchanged or emits one defect
while recording its (previously unrecorded) symbol produces a duplicate-free
symbol list. -/
theorem dedup_fold_nodup {α : Type}
    (step : (List Defect × List PyStr) → α → (List Defect × List PyStr))
    (hstep : ∀ st x, step st x = st ∨ ∃ d, (step st x).1 = st.1 ++ [d]
      ∧ (step st x).2 = st.2 ++ [d.sym] ∧ d.sym ∉ st.2)
    (l : List α) :
    ∀ st : List Defect × List PyStr,
      (st.1.map Defect.sym).Nodup → (∀ s ∈ st.1.map Defect.sym, s ∈ st.2) →
    ((l.foldl step st).1.map Defect.sym).Nodup := by
  induction l with
  | nil =>
    intro st h1 _
    exact h1
  | cons x xs ih =>
    intro st h1 h2
    rw [List.foldl_cons]
    rcases hstep st x with heq | ⟨d, hd1, hd2, hd3⟩
    · rw [heq]
      exact ih st h1 h2
    · refine ih (step st x) ?_ ?_
      · rw [hd1, List.map_append, List.nodup_append]
        refine ⟨h1, by simp, ?_⟩
        rw [List.disjoint_right]
        intro s hmem hs
        simp only [List.map_cons, List.map_nil, List.mem_singleton] at hmem
        subst hmem
        exact hd3 (h2 _ hs)
      · intro s hs
        rw [hd1, List.map_append] at hs
        rw [hd2]
        rcases List.mem_append.mp hs with h | h
        · exact List.mem_append_left _ (h2 s h)
        · simp only [List.map_cons, List.map_nil, List.mem_singleton] at h
          subst h
          exact List.mem_append_right _ (List.mem_singleton.mpr rfl)

theorem missing_sl_step_spec (corpus : Corpus)
    (dll ul : List PyStr) (paths : List (PyStr × String)) :
    ∀ st x, SLValidator.missing_sl_step corpus dll ul paths st x = st
      ∨ ∃ d, (SLValidator.missing_sl_step corpus dll ul paths st x).1
          = st.1 ++ [d]
        ∧ (SLValidator.missing_sl_step corpus dll ul paths st x).2
          = st.2 ++ [d.sym]
        ∧ d.sym ∉ st.2 := by
  intro st x
  unfold SLValidator.missing_sl_step
  by_cases hc : (!(dll.contains x.2) && !(st.2.contains x.2)) = true
  · rw [if_pos hc]
    dsimp only
    have hnot : x.2 ∉ st.2 := by
      have hand := (Bool.and_eq_true _ _).mp hc
      intro hmem
      have hcon : st.2.contains x.2 = true := by simpa using hmem
      rw [hcon] at hand
      simp at hand
    cases hf : SLValidator.get_full_path corpus
        (dictGetD paths (ul.getD x.1 []) (dictGetD paths x.2 "unknown"))
        x.2.asString with
    | some full_path =>
      exact Or.inr ⟨⟨x.2, relpath full_path,
        find_line_number (readFile corpus full_path) x.2.asString true⟩,
        rfl, rfl, hnot⟩
    | none =>
      exact Or.inl rfl
  · rw [if_neg hc]
    exact Or.inl rfl

theorem unused_sl_step_spec (corpus : Corpus)
    (ull dl : List PyStr) (paths : List (PyStr × String)) :
    ∀ st x, SLValidator.unused_sl_step corpus ull dl paths st x = st
      ∨ ∃ d, (SLValidator.unused_sl_step corpus ull dl paths st x).1
          = st.1 ++ [d]
        ∧ (SLValidator.unused_sl_step corpus ull dl paths st x).2
          = st.2 ++ [d.sym]
        ∧ d.sym ∉ st.2 := by
  intro st x
  unfold SLValidator.unused_sl_step
  by_cases hc : (!(ull.contains x.2) && !(st.2.contains x.2)) = true
  · rw [if_pos hc]
    dsimp only
    have hnot : x.2 ∉ st.2 := by
      have hand := (Bool.and_eq_true _ _).mp hc
      intro hmem
      have hcon : st.2.contains x.2 = true := by simpa using hmem
      rw [hcon] at hand
      simp at hand
    cases hf : (if corpus.any (fun f => f.path
          == "common/scripted_localisation/"
            ++ dictGetD paths (dl.getD x.1 []) (dictGetD paths x.2 "unknown"))
        then some ("common/scripted_localisation/"
          ++ dictGetD paths (dl.getD x.1 []) (dictGetD paths x.2 "unknown"))
        else ((corpus.filter
            (fun f => ScriptedLocalisation.isSLDirFile f.path)).find?
          (fun f => basenameOf f.path
            == dictGetD paths (dl.getD x.1 []) (dictGetD paths x.2 "unknown"))).map
          (·.path)) with
    | some p' =>
      exact Or.inr ⟨⟨x.2, relpath p',
        find_line_number (readFile corpus p') ("name = " ++ x.2.asString)
          true⟩,
        rfl, rfl, hnot⟩
    | none =>
      exact Or.inl rfl
  · rw [if_neg hc]
    exact Or.inl rfl

/-- C1 (amended): the two checks of the scripted-localisation validator
deduplicate by symbol through the `reported` set, so each of their defect
lists holds each symbol at most once; the flags/event-target validator has no
such set and can render a symbol several times (see the counterexample). -/
theorem C1_sl_checks_deduplicate (false_positives : List PyStr)
    (corpus : Corpus) :
    ((SLValidator.validate_missing_scripted_localisations false_positives
        corpus).map Defect.sym).Nodup
    ∧ ((SLValidator.validate_unused_scripted_localisations false_positives
        corpus).map Defect.sym).Nodup := by
  constructor
  · unfold SLValidator.validate_missing_scripted_localisations
    exact dedup_fold_nodup _ (missing_sl_step_spec _ _ _ _) _ ([], [])
      (by simp) (by simp)
  · unfold SLValidator.validate_unused_scripted_localisations
    exact dedup_fold_nodup _ (unused_sl_step_spec _ _ _ _) _ ([], [])
      (by simp) (by simp)

/-- C1 counterexample: `validate_missing_flags` renders a defect per extracted
occurrence — a flag used twice and never set appears twice in the same
rendered defect list. -/
theorem C1_duplicate_defect_counterexample :
    Validator.validate_missing_flags "country" []
        [⟨"a.txt", some "has_country_flag = foo\nhas_country_flag = foo\n"⟩]
      = .ok [⟨"foo".toList, "a.txt", 1⟩, ⟨"foo".toList, "a.txt", 1⟩]
    ∧ ¬ (([⟨"foo".toList, "a.txt", 1⟩, ⟨"foo".toList, "a.txt", 1⟩] :
        List Defect).map Defect.sym).Nodup := by
  refine ⟨rfl, by decide⟩

/-! ### Claim C2: emission or loss of located/unlocated defects -/

theorem foldl_emit_eq_filterMap {α β : Type} (step : List β → α → List β)
    (f : α → Option β) (hstep : ∀ acc x, step acc x = acc ++ (f x).toList)
    (l : List α) (init : List β) :
    l.foldl step init = init ++ l.filterMap f := by
  induction l generalizing init with
  | nil => simp
  | cons x xs ih =>
    rw [List.foldl_cons, hstep, ih, List.filterMap_cons]
    cases f x <;> simp

theorem mem_foldl_emit {α β : Type} (step : List β → α → List β)
    (f : α → Option β) (hstep : ∀ acc x, step acc x = acc ++ (f x).toList)
    (l : List α) (init : List β) {x : α} {b : β}
    (hx : x ∈ l) (hb : f x = some b) : b ∈ l.foldl step init := by
  rw [foldl_emit_eq_filterMap step f hstep]
  exact List.mem_append_right _ (List.mem_filterMap.mpr ⟨x, hx, hb⟩)

/-- The defect (if any) produced for one surviving flag by the report loop of
`validate_missing_flags`: `none` exactly when the flag is set or the Locator
cannot find the owning file. -/
def missing_flag_defect? (ft : String) (corpus : Corpus) (set_flags : List PyStr)
    (paths : List (PyStr × String)) (flag : PyStr) : Option Defect :=
  if set_flags.contains flag then none
  else
    let basename := dictGetD paths flag ""
    let probe := "has_" ++ ft ++ "_flag = " ++ flag.asString
    match Validator.get_full_path corpus basename probe with
    | some full_path =>
      some ⟨flag, relpath full_path,
        find_line_number (readFile corpus full_path) probe false⟩
    | none => none

theorem validate_missing_flags_ok {ft : String} {fps : List PyStr}
    {corpus : Corpus} {used setf : List PyStr}
    {paths sp : List (PyStr × String)}
    (h1 : Variables.get_all_used_flags ft false corpus = .ok (used, paths))
    (h2 : Variables.get_all_set_flags ft false corpus = .ok (setf, sp)) :
    Validator.validate_missing_flags ft fps corpus
      = .ok ((DataCleaner.clear_false_positives_list used fps).filterMap
          (missing_flag_defect? ft corpus setf paths)) := by
  unfold Validator.validate_missing_flags
  rw [h1, h2]
  show Except.ok _ = _
  congr 1
  rw [foldl_emit_eq_filterMap _ (missing_flag_defect? ft corpus setf paths)
    (fun acc x => ?_) _ []]
  · simp
  · unfold missing_flag_defect?
    by_cases hc : setf.contains x = true
    · rw [if_pos hc, if_pos hc]
      simp
    · rw [if_neg hc, if_neg hc]
      dsimp only
      cases Validator.get_full_path corpus (dictGetD paths x "")
          ("has_" ++ ft ++ "_flag = " ++ x.asString) with
      | some fp => simp
      | none => simp

/-- C2 (amended): a symbol that survives the false-positive filter and the
set difference is emitted as a defect whenever the Locator finds its owning
file (even when the probe line is unknown, in which case the line is 0); but
when the Locator cannot find the owning file the defect is silently dropped
(see the counterexample), not emitted with line 0. -/
theorem C2_located_defects_emitted (ft : String) (fps : List PyStr)
    (corpus : Corpus) (used setf : List PyStr)
    (paths sp : List (PyStr × String)) (flag : PyStr) (p : String)
    (h1 : Variables.get_all_used_flags ft false corpus = .ok (used, paths))
    (h2 : Variables.get_all_set_flags ft false corpus = .ok (setf, sp))
    (h3 : flag ∈ DataCleaner.clear_false_positives_list used fps)
    (h4 : setf.contains flag = false)
    (h5 : Validator.get_full_path corpus (dictGetD paths flag "")
        ("has_" ++ ft ++ "_flag = " ++ flag.asString) = some p) :
    ∃ results, Validator.validate_missing_flags ft fps corpus = .ok results
      ∧ (⟨flag, relpath p,
          find_line_number (readFile corpus p)
            ("has_" ++ ft ++ "_flag = " ++ flag.asString) false⟩ : Defect)
          ∈ results := by
  refine ⟨_, validate_missing_flags_ok h1 h2, ?_⟩
  refine List.mem_filterMap.mpr ⟨flag, h3, ?_⟩
  unfold missing_flag_defect?
  rw [if_neg (by rw [h4]; exact Bool.false_ne_true)]
  dsimp only
  rw [h5]

/-- Witness for C2 at a concrete corpus: the used-but-never-set flag `ghost`
is located in `a.txt` and emitted. -/
theorem C2_located_defects_emitted_witness :
    ∃ results, Validator.validate_missing_flags "country" []
        [⟨"a.txt", some "has_country_flag = ghost\n"⟩] = .ok results
      ∧ (⟨"ghost".toList, relpath "a.txt",
          find_line_number (readFile
            [⟨"a.txt", some "has_country_flag = ghost\n"⟩] "a.txt")
            ("has_" ++ "country" ++ "_flag = " ++ "ghost".toList.asString)
            false⟩ : Defect) ∈ results :=
  C2_located_defects_emitted "country" []
    [⟨"a.txt", some "has_country_flag = ghost\n"⟩]
    ["ghost".toList] [] [("ghost".toList, "a.txt")] []
    "ghost".toList "a.txt" rfl rfl (by decide) (by decide) rfl

/-- C2 counterexample: the flag `foo` is extracted only from the braced form,
so the probe `has_country_flag = foo` occurs in no file: it survives filtering
and the set difference but the check reports nothing — the defect is dropped,
not emitted with line 0. -/
theorem C2_unlocated_defect_dropped_counterexample :
    Variables.get_all_used_flags "country" false
        [⟨"a.txt", some "has_country_flag = \x7b\n\tflag = foo\n\x7d\n"⟩]
      = .ok (["\x7b".toList, "foo".toList],
          [("\x7b".toList, "a.txt"), ("foo".toList, "a.txt")])
    ∧ Variables.get_all_set_flags "country" false
        [⟨"a.txt", some "has_country_flag = \x7b\n\tflag = foo\n\x7d\n"⟩]
      = .ok ([], [])
    ∧ DataCleaner.clear_false_positives_list
        ["\x7b".toList, "foo".toList] ["\x7b".toList] = ["foo".toList]
    ∧ Validator.validate_missing_flags "country" ["\x7b".toList]
        [⟨"a.txt", some "has_country_flag = \x7b\n\tflag = foo\n\x7d\n"⟩]
      = .ok [] := by
  exact ⟨rfl, rfl, by decide, rfl⟩

/-! ### Claim C3: which file the symbol-to-file mapping retains -/

theorem dictGet?_dictSet (d : List (PyStr × String)) (k : PyStr) (v : String)
    (q : PyStr) :
    dictGet? (dictSet d k v) q = if q = k then some v else dictGet? d q := by
  induction d with
  | nil =>
    show dictGet? [(k, v)] q = if q = k then some v else none
    unfold dictGet?
    by_cases h : q = k
    · subst h
      rw [if_pos rfl, if_pos rfl]
    · rw [if_neg (fun hh => h hh.symm), if_neg h]
      rfl
  | cons p rest ih =>
    obtain ⟨a, b⟩ := p
    show dictGet? (if a = k then (k, v) :: rest
        else (a, b) :: dictSet rest k v) q = _
    by_cases ha : a = k
    · rw [if_pos ha]
      subst ha
      by_cases hq : q = a
      · subst hq
        simp [dictGet?]
      · show dictGet? ((a, v) :: rest) q = _
        unfold dictGet?
        rw [if_neg (fun h => hq h.symm), if_neg hq, if_neg (fun h => hq h.symm)]
    · rw [if_neg ha]
      show dictGet? ((a, b) :: dictSet rest k v) q = _
      unfold dictGet?
      by_cases hqa : a = q
      · have hqk : ¬q = k := fun h => ha (hqa.trans h)
        rw [if_pos hqa, if_neg hqk, if_pos hqa]
      · rw [if_neg hqa]
        show dictGet? (dictSet rest k v) q = _
        rw [ih]
        by_cases hqk : q = k
        · rw [if_pos hqk, if_pos hqk]
        · rw [if_neg hqk, if_neg hqk, if_neg hqa]

theorem processMatches_lookup (st : List PyStr × List (PyStr × String))
    (bn : String) (ms : List PyStr) (s : PyStr) :
    dictGet? (processMatches st bn ms).2 s
      = if s ∈ ms then some bn else dictGet? st.2 s := by
  induction ms generalizing st with
  | nil => simp [processMatches]
  | cons m rest ih =>
    unfold processMatches at ih ⊢
    rw [List.foldl_cons]
    rw [ih (st.1 ++ [m], dictSet st.2 m bn)]
    by_cases hr : s ∈ rest
    · rw [if_pos hr, if_pos (List.mem_cons_of_mem _ hr)]
    · rw [if_neg hr]
      show dictGet? (dictSet st.2 m bn) s = _
      rw [dictGet?_dictSet]
      by_cases hm : s = m
      · subst hm
        rw [if_pos rfl, if_pos (List.mem_cons_self _ _)]
      · rw [if_neg hm, if_neg (by
          intro hc
          rcases List.mem_cons.mp hc with h | h
          · exact hm h
          · exact hr h)]

theorem fold_processMatches_lookup (files : Corpus)
    (matchesOf : FileEntry → List PyStr)
    (st : List PyStr × List (PyStr × String)) (s : PyStr) :
    dictGet? ((files.foldl (fun st f =>
        processMatches st (basenameOf f.path) (matchesOf f)) st).2) s
      = match files.reverse.find? (fun f => (matchesOf f).contains s) with
        | some f => some (basenameOf f.path)
        | none => dictGet? st.2 s := by
  induction files generalizing st with
  | nil => simp
  | cons f fs ih =>
    rw [List.foldl_cons, ih, List.reverse_cons, List.find?_append]
    cases hfind : fs.reverse.find? (fun f => (matchesOf f).contains s) with
    | some g => rw [Option.or_some]
    | none =>
      rw [Option.none_or]
      rw [List.find?_singleton]
      by_cases hc : (matchesOf f).contains s = true
      · rw [if_pos hc]
        rw [processMatches_lookup]
        rw [if_pos (by simpa using hc)]
      · rw [if_neg hc]
        rw [processMatches_lookup]
        rw [if_neg (by
          intro hmem
          exact hc (by simpa using hmem))]

theorem inner_used_loc_mem (text : PyStr) (bn : String) (names : List PyStr) :
    ∀ (st : List PyStr × List (PyStr × String)) (s : PyStr),
    s ∈ (names.foldl (fun st name =>
        if st.1.contains name then st
        else if substr name text then (st.1 ++ [name], dictSet st.2 name bn)
        else st) st).1
      ↔ s ∈ st.1 ∨ (s ∈ names ∧ substr s text = true) := by
  induction names with
  | nil =>
    intro st s
    simp
  | cons n rest ih =>
    intro st s
    rw [List.foldl_cons]
    by_cases hn : st.1.contains n = true
    · rw [if_pos hn, ih]
      have hnm : n ∈ st.1 := by simpa using hn
      constructor
      · rintro (h | ⟨h1, h2⟩)
        · exact Or.inl h
        · exact Or.inr ⟨List.mem_cons_of_mem _ h1, h2⟩
      · rintro (h | ⟨h1, h2⟩)
        · exact Or.inl h
        · rcases List.mem_cons.mp h1 with rfl | h1
          · exact Or.inl hnm
          · exact Or.inr ⟨h1, h2⟩
    · rw [if_neg hn]
      by_cases hsub : substr n text = true
      · rw [if_pos hsub, ih]
        simp only [List.mem_append, List.mem_singleton]
        constructor
        · rintro ((h | rfl) | ⟨h1, h2⟩)
          · exact Or.inl h
          · exact Or.inr ⟨List.mem_cons_self _ _, hsub⟩
          · exact Or.inr ⟨List.mem_cons_of_mem _ h1, h2⟩
        · rintro (h | ⟨h1, h2⟩)
          · exact Or.inl (Or.inl h)
          · rcases List.mem_cons.mp h1 with rfl | h1
            · exact Or.inl (Or.inr rfl)
            · exact Or.inr ⟨h1, h2⟩
      · rw [if_neg hsub, ih]
        constructor
        · rintro (h | ⟨h1, h2⟩)
          · exact Or.inl h
          · exact Or.inr ⟨List.mem_cons_of_mem _ h1, h2⟩
        · rintro (h | ⟨h1, h2⟩)
          · exact Or.inl h
          · rcases List.mem_cons.mp h1 with rfl | h1
            · exact absurd h2 hsub
            · exact Or.inr ⟨h1, h2⟩

theorem inner_used_loc_lookup (text : PyStr) (bn : String) (names : List PyStr) :
    ∀ (st : List PyStr × List (PyStr × String)) (s : PyStr),
    dictGet? ((names.foldl (fun st name =>
        if st.1.contains name then st
        else if substr name text then (st.1 ++ [name], dictSet st.2 name bn)
        else st) st).2) s
      = if s ∈ st.1 then dictGet? st.2 s
        else if s ∈ names ∧ substr s text = true then some bn
        else dictGet? st.2 s := by
  induction names with
  | nil =>
    intro st s
    by_cases hs : s ∈ st.1
    · rw [List.foldl_nil, if_pos hs]
    · rw [List.foldl_nil, if_neg hs, if_neg (by simp)]
  | cons n rest ih =>
    intro st s
    rw [List.foldl_cons]
    by_cases hn : st.1.contains n = true
    · rw [if_pos hn, ih]
      have hnm : n ∈ st.1 := by simpa using hn
      by_cases hs : s ∈ st.1
      · rw [if_pos hs, if_pos hs]
      · rw [if_neg hs, if_neg hs]
        by_cases hc : s ∈ rest ∧ substr s text = true
        · rw [if_pos hc, if_pos ⟨List.mem_cons_of_mem _ hc.1, hc.2⟩]
        · rw [if_neg hc, if_neg (by
            rintro ⟨h1, h2⟩
            rcases List.mem_cons.mp h1 with rfl | h1
            · exact hs hnm
            · exact hc ⟨h1, h2⟩)]
    · rw [if_neg hn]
      have hnm : n ∉ st.1 := by simpa using hn
      by_cases hsub : substr n text = true
      · rw [if_pos hsub, ih]
        dsimp only
        by_cases hs : s ∈ st.1
        · rw [if_pos (List.mem_append_left _ hs), dictGet?_dictSet,
            if_neg (fun (h : s = n) => hnm (h ▸ hs)), if_pos hs]
        · by_cases hsn : s = n
          · subst hsn
            rw [if_pos (List.mem_append_right _ (List.mem_singleton.mpr rfl)),
              dictGet?_dictSet, if_pos rfl, if_neg hs,
              if_pos ⟨List.mem_cons_self _ _, hsub⟩]
          · rw [if_neg (by
              intro h
              rcases List.mem_append.mp h with h | h
              · exact hs h
              · exact hsn (List.mem_singleton.mp h)),
              dictGet?_dictSet, if_neg hsn, if_neg hs]
            by_cases hc : s ∈ rest ∧ substr s text = true
            · rw [if_pos hc, if_pos ⟨List.mem_cons_of_mem _ hc.1, hc.2⟩]
            · rw [if_neg hc, if_neg (by
                rintro ⟨h1, h2⟩
                rcases List.mem_cons.mp h1 with rfl | h1
                · exact hsn rfl
                · exact hc ⟨h1, h2⟩)]
      · rw [if_neg hsub, ih]
        by_cases hs : s ∈ st.1
        · rw [if_pos hs, if_pos hs]
        · rw [if_neg hs, if_neg hs]
          by_cases hc : s ∈ rest ∧ substr s text = true
          · rw [if_pos hc, if_pos ⟨List.mem_cons_of_mem _ hc.1, hc.2⟩]
          · rw [if_neg hc, if_neg (by
              rintro ⟨h1, h2⟩
              rcases List.mem_cons.mp h1 with rfl | h1
              · exact hsub h2
              · exact hc ⟨h1, h2⟩)]

/-- Does this file register symbol `s` during the used-localisations scan:
not skipped, not a `scripted_localisation` path, and the (fault-tolerantly
read) text contains `s`. -/
def usedLocFileFinds (lowercase : Bool) (s : PyStr) (f : FileEntry) : Bool :=
  !should_skip_file f.path && !strSub "scripted_localisation" f.path
    && substr s (FileOpener.open_text_file f.content lowercase).toList

theorem fold_used_loc_first_wins (lc : Bool) (names : List PyStr)
    (files : Corpus) :
    ∀ (st : List PyStr × List (PyStr × String)) (s : PyStr), s ∈ names →
    (s ∈ (files.foldl (fun st f =>
        ScriptedLocalisation.used_loc_file_step names st f lc) st).1
      ↔ s ∈ st.1 ∨ ∃ f ∈ files, usedLocFileFinds lc s f = true)
    ∧ dictGet? ((files.foldl (fun st f =>
        ScriptedLocalisation.used_loc_file_step names st f lc) st).2) s
      = (if s ∈ st.1 then dictGet? st.2 s
        else match files.find? (usedLocFileFinds lc s) with
          | some f => some (basenameOf f.path)
          | none => dictGet? st.2 s) := by
  induction files with
  | nil =>
    intro st s _
    refine ⟨by simp, ?_⟩
    by_cases hs : s ∈ st.1
    · rw [List.foldl_nil, if_pos hs]
    · rw [List.foldl_nil, if_neg hs]
      rfl
  | cons f fs ih =>
    intro st s hs
    rw [List.foldl_cons]
    by_cases h1 : should_skip_file f.path = true
    · have hstep : ScriptedLocalisation.used_loc_file_step names st f lc = st := by
        unfold ScriptedLocalisation.used_loc_file_step
        rw [if_pos h1]
      have hfind : usedLocFileFinds lc s f = false := by
        unfold usedLocFileFinds
        rw [h1]
        rfl
      rw [hstep]
      obtain ⟨ihm, ihl⟩ := ih st s hs
      refine ⟨?_, ?_⟩
      · rw [ihm]
        constructor
        · rintro (h | ⟨g, hg, hgf⟩)
          · exact Or.inl h
          · exact Or.inr ⟨g, List.mem_cons_of_mem _ hg, hgf⟩
        · rintro (h | ⟨g, hg, hgf⟩)
          · exact Or.inl h
          · rcases List.mem_cons.mp hg with rfl | hg
            · rw [hfind] at hgf
              exact absurd hgf Bool.false_ne_true
            · exact Or.inr ⟨g, hg, hgf⟩
      · rw [ihl, List.find?_cons_of_neg _ (by
          rw [hfind]
          exact Bool.false_ne_true)]
    · by_cases h2 : strSub "scripted_localisation" f.path = true
      · have hstep : ScriptedLocalisation.used_loc_file_step names st f lc
            = st := by
          unfold ScriptedLocalisation.used_loc_file_step
          rw [if_neg h1, if_pos h2]
        have hfind : usedLocFileFinds lc s f = false := by
          unfold usedLocFileFinds
          rw [h2, Bool.eq_false_iff.mpr h1]
          rfl
        rw [hstep]
        obtain ⟨ihm, ihl⟩ := ih st s hs
        refine ⟨?_, ?_⟩
        · rw [ihm]
          constructor
          · rintro (h | ⟨g, hg, hgf⟩)
            · exact Or.inl h
            · exact Or.inr ⟨g, List.mem_cons_of_mem _ hg, hgf⟩
          · rintro (h | ⟨g, hg, hgf⟩)
            · exact Or.inl h
            · rcases List.mem_cons.mp hg with rfl | hg
              · rw [hfind] at hgf
                exact absurd hgf Bool.false_ne_true
              · exact Or.inr ⟨g, hg, hgf⟩
        · rw [ihl, List.find?_cons_of_neg _ (by
            rw [hfind]
            exact Bool.false_ne_true)]
      · have hstep : ScriptedLocalisation.used_loc_file_step names st f lc
            = names.foldl (fun st name =>
                if st.1.contains name then st
                else if substr name
                    (FileOpener.open_text_file f.content lc).toList then
                  (st.1 ++ [name], dictSet st.2 name (basenameOf f.path))
                else st) st := by
          unfold ScriptedLocalisation.used_loc_file_step
          rw [if_neg h1, if_neg h2]
        have hfind : usedLocFileFinds lc s f
            = substr s (FileOpener.open_text_file f.content lc).toList := by
          unfold usedLocFileFinds
          rw [Bool.eq_false_iff.mpr h1, Bool.eq_false_iff.mpr h2]
          rfl
        rw [hstep]
        obtain ⟨ihm, ihl⟩ := ih (names.foldl (fun st name =>
            if st.1.contains name then st
            else if substr name
                (FileOpener.open_text_file f.content lc).toList then
              (st.1 ++ [name], dictSet st.2 name (basenameOf f.path))
            else st) st) s hs
        have hm1 := inner_used_loc_mem
          (FileOpener.open_text_file f.content lc).toList
          (basenameOf f.path) names st s
        have hl1 := inner_used_loc_lookup
          (FileOpener.open_text_file f.content lc).toList
          (basenameOf f.path) names st s
        refine ⟨?_, ?_⟩
        · rw [ihm, hm1]
          constructor
          · rintro ((h | ⟨_, h2c⟩) | ⟨g, hg, hgf⟩)
            · exact Or.inl h
            · exact Or.inr ⟨f, List.mem_cons_self _ _, by rw [hfind]; exact h2c⟩
            · exact Or.inr ⟨g, List.mem_cons_of_mem _ hg, hgf⟩
          · rintro (h | ⟨g, hg, hgf⟩)
            · exact Or.inl (Or.inl h)
            · rcases List.mem_cons.mp hg with rfl | hg
              · rw [hfind] at hgf
                exact Or.inl (Or.inr ⟨hs, hgf⟩)
              · exact Or.inr ⟨g, hg, hgf⟩
        · rw [ihl]
          by_cases hsin : s ∈ st.1
          · rw [if_pos (hm1.mpr (Or.inl hsin)), hl1, if_pos hsin, if_pos hsin]
          · by_cases hsub : substr s
                (FileOpener.open_text_file f.content lc).toList = true
            · rw [if_pos (hm1.mpr (Or.inr ⟨hs, hsub⟩)), hl1, if_neg hsin,
                if_pos ⟨hs, hsub⟩, if_neg hsin,
                List.find?_cons_of_pos _ (by rw [hfind]; exact hsub)]
            · have hnmem : s ∉ (names.foldl (fun st name =>
                  if st.1.contains name then st
                  else if substr name
                      (FileOpener.open_text_file f.content lc).toList then
                    (st.1 ++ [name], dictSet st.2 name (basenameOf f.path))
                  else st) st).1 := by
                rw [hm1]
                rintro (h | ⟨_, h2c⟩)
                · exact hsin h
                · exact hsub h2c
              rw [if_neg hnmem, hl1, if_neg hsin,
                if_neg (fun hc => hsub hc.2), if_neg hsin,
                List.find?_cons_of_neg _ (by rw [hfind]; exact hsub)]

/-- C3 (amended): the flag extractors overwrite the path entry on every match,
so the symbol-to-file mapping records the LAST scanned file containing a
match for the symbol (the first file is overwritten, see the counterexample);
only the scripted-localisation use extractor registers a symbol once and
retains the FIRST file containing it. -/
theorem C3_symbol_to_file_mapping :
    (∀ (ft : String) (lc : Bool) (corpus : Corpus) (fl : List PyStr)
        (paths : List (PyStr × String)) (s : PyStr),
      Variables.get_all_set_flags ft lc corpus = .ok (fl, paths) →
      dictGet? paths s
        = match (globTxt corpus).reverse.find?
            (fun f => (Variables.set_flags_file_matches ft lc f).contains s) with
          | some f => some (basenameOf f.path)
          | none => none)
    ∧ (∀ (corpus : Corpus) (defined_names : List PyStr) (s : PyStr),
        s ∈ defined_names →
      dictGet? (ScriptedLocalisation.get_all_used_localisations corpus
          defined_names false).2 s
        = match (ScriptedLocalisation.used_loc_files corpus).find?
            (usedLocFileFinds false s) with
          | some f => some (basenameOf f.path)
          | none => none) := by
  constructor
  · intro ft lc corpus fl paths s h
    unfold Variables.get_all_set_flags at h
    by_cases hft : flagTypeValid ft = true
    · rw [if_pos hft] at h
      simp only [Except.ok.injEq] at h
      have hp : paths = ((globTxt corpus).foldl
          (fun st f => processMatches st (basenameOf f.path)
            (Variables.set_flags_file_matches ft lc f)) ([], [])).2 := by
        rw [h]
      rw [hp, fold_processMatches_lookup]
      cases (globTxt corpus).reverse.find?
          (fun f => (Variables.set_flags_file_matches ft lc f).contains s) with
      | some g => rfl
      | none => rfl
    · rw [if_neg hft] at h
      exact absurd h (by simp)
  · intro corpus defined_names s hmem
    have hunf : ScriptedLocalisation.get_all_used_localisations corpus
        defined_names false
        = (ScriptedLocalisation.used_loc_files corpus).foldl
            (fun st f => ScriptedLocalisation.used_loc_file_step defined_names
              st f false) ([], []) := rfl
    rw [hunf]
    have h := (fold_used_loc_first_wins false defined_names
      (ScriptedLocalisation.used_loc_files corpus) ([], []) s hmem).2
    rw [h, if_neg (by simp)]
    cases (ScriptedLocalisation.used_loc_files corpus).find?
        (usedLocFileFinds false s) with
    | some g => rfl
    | none => rfl

/-- Witness for C3 at concrete corpora: the set-flag path map records the last
file `b.txt`, the used-localisation path map records the first file
`a.gui`. -/
theorem C3_symbol_to_file_mapping_witness :
    (dictGet? [("foo".toList, "b.txt")] "foo".toList
      = match ((globTxt [⟨"a.txt", some "set_country_flag = foo\n"⟩,
            ⟨"b.txt", some "set_country_flag = foo\n"⟩]).reverse.find?
          (fun f => (Variables.set_flags_file_matches "country" false
            f).contains "foo".toList)) with
        | some f => some (basenameOf f.path)
        | none => none)
    ∧ (dictGet? (ScriptedLocalisation.get_all_used_localisations
          [⟨"a.gui", some "uses GetThing here\n"⟩,
           ⟨"b.gui", some "uses GetThing too\n"⟩]
          ["GetThing".toList] false).2 "GetThing".toList
      = match (ScriptedLocalisation.used_loc_files
            [⟨"a.gui", some "uses GetThing here\n"⟩,
             ⟨"b.gui", some "uses GetThing too\n"⟩]).find?
          (usedLocFileFinds false "GetThing".toList) with
        | some f => some (basenameOf f.path)
        | none => none) := by
  constructor
  · exact C3_symbol_to_file_mapping.1 "country" false
      [⟨"a.txt", some "set_country_flag = foo\n"⟩,
       ⟨"b.txt", some "set_country_flag = foo\n"⟩]
      ["foo".toList, "foo".toList] [("foo".toList, "b.txt")] "foo".toList rfl
  · exact C3_symbol_to_file_mapping.2
      [⟨"a.gui", some "uses GetThing here\n"⟩,
       ⟨"b.gui", some "uses GetThing too\n"⟩]
      ["GetThing".toList] "GetThing".toList (by decide)

/-- C3 counterexample: two files set the same flag; the recorded file is the
second one, not the first — later matches do overwrite the mapping. -/
theorem C3_first_file_not_retained_counterexample :
    Variables.get_all_set_flags "country" false
        [⟨"a.txt", some "set_country_flag = foo\n"⟩,
         ⟨"b.txt", some "set_country_flag = foo\n"⟩]
      = .ok (["foo".toList, "foo".toList], [("foo".toList, "b.txt")])
    ∧ ("b.txt" : String) ≠ "a.txt" := by
  exact ⟨rfl, by decide⟩

/-! ### Claim C7: the localisation escape hatch for unused event targets -/

/-- The defect (if any) produced for one potential unused target by the report
loop of `validate_unused_event_targets`. -/
def unused_target_defect? (corpus : Corpus) (paths : List (PyStr × String))
    (loc_used : List PyStr) (target : PyStr) : Option Defect :=
  if loc_used.contains target then none
  else
    let basename := dictGetD paths target ""
    let probe1 := "save_event_target_as = " ++ target.asString
    let probe2 := "save_global_event_target_as = " ++ target.asString
    let full_path :=
      match Validator.get_full_path corpus basename probe1 with
      | some p => some p
      | none => Validator.get_full_path corpus basename probe2
    match full_path with
    | some p =>
      let line1 := find_line_number (readFile corpus p) probe1 false
      let line_num :=
        if line1 == 0 then find_line_number (readFile corpus p) probe2 false
        else line1
      some ⟨target, relpath p, line_num⟩
    | none => none

theorem validate_unused_event_targets_eq (corpus : Corpus) :
    Validator.validate_unused_event_targets corpus
      = (Validator.unused_targets_potential_results corpus).filterMap
          (unused_target_defect? corpus
            (EventTargets.get_all_set_targets false corpus).2
            (Validator.targets_used_in_loc corpus)) := by
  unfold Validator.validate_unused_event_targets
  cases hpair : EventTargets.get_all_set_targets false corpus with
  | mk fl2 paths2 =>
    dsimp only
    rw [foldl_emit_eq_filterMap _ (unused_target_defect? corpus paths2
        (Validator.targets_used_in_loc corpus)) (fun acc x => ?_) _ []]
    · simp
    · unfold unused_target_defect?
      by_cases hc : (Validator.targets_used_in_loc corpus).contains x = true
      · rw [if_pos hc, if_pos hc]
        simp
      · rw [if_neg hc, if_neg hc]
        dsimp only
        cases hfp : (match Validator.get_full_path corpus
            (dictGetD paths2 x "")
            ("save_event_target_as = " ++ x.asString) with
          | some p => some p
          | none => Validator.get_full_path corpus
              (dictGetD paths2 x "")
              ("save_global_event_target_as = " ++ x.asString)) with
        | some p => simp
        | none => simp

theorem unused_target_defect?_sym {corpus : Corpus}
    {paths : List (PyStr × String)} {loc_used : List PyStr} {target : PyStr}
    {d : Defect} (h : unused_target_defect? corpus paths loc_used target
      = some d) : d.sym = target := by
  unfold unused_target_defect? at h
  by_cases hc : loc_used.contains target = true
  · rw [if_pos hc] at h
    exact absurd h (by simp)
  · rw [if_neg hc] at h
    dsimp only at h
    cases hfp : (match Validator.get_full_path corpus
        (dictGetD paths target "") ("save_event_target_as = " ++ target.asString) with
      | some p => some p
      | none => Validator.get_full_path corpus (dictGetD paths target "")
          ("save_global_event_target_as = " ++ target.asString)) with
    | some p =>
      rw [hfp] at h
      simp only [Option.some.injEq] at h
      rw [← h]
    | none =>
      rw [hfp] at h
      exact absurd h (by simp)

theorem loc_fold_mem_mono (pot : List PyStr) (files : Corpus) :
    ∀ (acc : List PyStr) (t : PyStr), t ∈ acc →
    t ∈ files.foldl (fun acc f =>
      if should_skip_file f.path then acc
      else
        let text := (FileOpener.open_text_file f.content true).toList
        if substr ".get".toList text then
          let not_encountered_targets :=
            pot.filter (fun t => !(acc.contains t))
          acc ++ not_encountered_targets.filter (fun target =>
            substr ('[' :: target ++ ".getname".toList) text ||
            substr ('[' :: target ++ ".getadjective".toList) text)
        else acc) acc := by
  induction files with
  | nil =>
    intro acc t ht
    exact ht
  | cons g gs ih =>
    intro acc t ht
    rw [List.foldl_cons]
    refine ih _ t ?_
    by_cases h1 : should_skip_file g.path = true
    · rw [if_pos h1]
      exact ht
    · rw [if_neg h1]
      dsimp only
      by_cases h2 : substr ".get".toList
          (FileOpener.open_text_file g.content true).toList = true
      · rw [if_pos h2]
        exact List.mem_append_left _ ht
      · rw [if_neg h2]
        exact ht

theorem loc_fold_finds (pot : List PyStr) (files : Corpus) :
    ∀ (acc : List PyStr) (t : PyStr) (fe : FileEntry) (c : String),
    t ∈ pot → fe ∈ files → should_skip_file fe.path = false →
    fe.content = some c →
    (substr ('[' :: t ++ ".getname".toList) (pyLower c.toList) = true ∨
     substr ('[' :: t ++ ".getadjective".toList) (pyLower c.toList) = true) →
    t ∈ files.foldl (fun acc f =>
      if should_skip_file f.path then acc
      else
        let text := (FileOpener.open_text_file f.content true).toList
        if substr ".get".toList text then
          let not_encountered_targets :=
            pot.filter (fun t => !(acc.contains t))
          acc ++ not_encountered_targets.filter (fun target =>
            substr ('[' :: target ++ ".getname".toList) text ||
            substr ('[' :: target ++ ".getadjective".toList) text)
        else acc) acc := by
  induction files with
  | nil =>
    intro acc t fe c _ hmem _ _ _
    exact absurd hmem (List.not_mem_nil fe)
  | cons g gs ih =>
    intro acc t fe c hpot hmem hskip hcontent hidiom
    rw [List.foldl_cons]
    rcases List.mem_cons.mp hmem with rfl | hmem'
    · -- the matching file is processed now; afterwards membership is monotone
      refine loc_fold_mem_mono pot gs _ t ?_
      rw [if_neg (by rw [hskip]; exact Bool.false_ne_true)]
      have htext : (FileOpener.open_text_file fe.content true).toList
          = pyLower c.toList := by
        rw [hcontent]
        show (pyLowerS c).toList = _
        unfold pyLowerS
        exact List.toList_asString _
      dsimp only
      rw [htext]
      have hget : substr ".get".toList (pyLower c.toList) = true := by
        have hdecomp : ('[' :: t ++ ".getname".toList)
            = ('[' :: t) ++ ".get".toList ++ "name".toList := by
          simp
        have hdecomp2 : ('[' :: t ++ ".getadjective".toList)
            = ('[' :: t) ++ ".get".toList ++ "adjective".toList := by
          simp
        rcases hidiom with h | h
        · refine substr_trans ?_ h
          rw [hdecomp]
          exact substr_of_middle _ _ _
        · refine substr_trans ?_ h
          rw [hdecomp2]
          exact substr_of_middle _ _ _
      rw [if_pos hget]
      by_cases hacc : t ∈ acc
      · exact List.mem_append_left _ hacc
      · refine List.mem_append_right _ ?_
        refine List.mem_filter.mpr ⟨?_, ?_⟩
        · refine List.mem_filter.mpr ⟨hpot, ?_⟩
          simpa using hacc
        · rcases hidiom with h | h
          · rw [h]
            rfl
          · rw [h]
            simp
    · exact ih _ t fe c hpot hmem' hskip hcontent hidiom

/-- C7 (amended): for a target whose name is unchanged by lowercasing, a
localisation `.yml` file (outside the ignored directories) containing
`[<target>.GetName` or `[<target>.GetAdjective` suppresses the target from
the unused-event-targets report.  The yml scan lowercases the file text but
not the target, so the suppression compares the original-case target against
lowercased text: a target with an uppercase letter is NOT suppressed (see the
counterexample). -/
theorem C7_loc_escape_hatch (corpus : Corpus) (t : PyStr) (fe : FileEntry)
    (c : String)
    (hlow : pyLower t = t)
    (hfe : fe ∈ corpus)
    (hyml : strEndsWith ".yml" fe.path = true)
    (hskip : should_skip_file fe.path = false)
    (hcontent : fe.content = some c)
    (hidiom : substr ('[' :: t ++ ".GetName".toList) c.toList = true
      ∨ substr ('[' :: t ++ ".GetAdjective".toList) c.toList = true) :
    ∀ d ∈ Validator.validate_unused_event_targets corpus, d.sym ≠ t := by
  intro d hd hcontra
  rw [validate_unused_event_targets_eq] at hd
  obtain ⟨x, hx, hfx⟩ := List.mem_filterMap.mp hd
  have hsym := unused_target_defect?_sym hfx
  have hxt : x = t := by rw [← hsym, hcontra]
  subst hxt
  -- the original-case idiom lowers to the scanned, lowercased idiom
  have hidiom' : substr ('[' :: x ++ ".getname".toList) (pyLower c.toList) = true
      ∨ substr ('[' :: x ++ ".getadjective".toList) (pyLower c.toList) = true := by
    rcases hidiom with h | h
    · left
      have hh := substr_pyLower h
      unfold pyLower at hh ⊢
      simp only [List.map_cons, List.map_append,
        show Char.toLower '[' = '[' from rfl,
        show ".GetName".toList.map Char.toLower = ".getname".toList by decide,
        show List.map Char.toLower x = x from hlow] at hh
      exact hh
    · right
      have hh := substr_pyLower h
      unfold pyLower at hh ⊢
      simp only [List.map_cons, List.map_append,
        show Char.toLower '[' = '[' from rfl,
        show ".GetAdjective".toList.map Char.toLower = ".getadjective".toList
          by decide,
        show List.map Char.toLower x = x from hlow] at hh
      exact hh
  have hloc : x ∈ Validator.targets_used_in_loc corpus := by
    unfold Validator.targets_used_in_loc
    exact loc_fold_finds (Validator.unused_targets_potential_results corpus)
      (corpus.filter (fun f => strEndsWith ".yml" f.path)) [] x fe c hx
      (List.mem_filter.mpr ⟨hfe, hyml⟩) hskip hcontent hidiom'
  unfold unused_target_defect? at hfx
  rw [if_pos (by simpa using hloc)] at hfx
  exact absurd hfx (by simp)

/-- Witness for C7 at a concrete corpus: `hero` is saved, never used from
script, but `[hero.GetName]` in a localisation file suppresses it. -/
theorem C7_loc_escape_hatch_witness :
    (Validator.validate_unused_event_targets
        [⟨"a.txt", some "save_event_target_as = hero\n"⟩,
         ⟨"b.yml", some "[hero.GetName]\n"⟩]).all
      (fun d => !(d.sym == "hero".toList)) = true :=
  List.all_eq_true.mpr (fun d hd => by
    simpa using C7_loc_escape_hatch
      [⟨"a.txt", some "save_event_target_as = hero\n"⟩,
       ⟨"b.yml", some "[hero.GetName]\n"⟩]
      "hero".toList ⟨"b.yml", some "[hero.GetName]\n"⟩ "[hero.GetName]\n"
      (by decide) (by decide) (by decide) (by decide) rfl
      (Or.inl (by decide)) d hd)

/-- C7 counterexample: the target `Hero` is saved and only referenced from a
localisation file as `[Hero.GetName]`, yet the unused-event-targets check
reports it — the escape hatch fails for mixed-case targets because the yml
text is lowercased while the target is not. -/
theorem C7_mixed_case_not_suppressed_counterexample :
    substr ('[' :: "Hero".toList ++ ".GetName".toList)
        "[Hero.GetName]\n".toList = true
    ∧ Validator.validate_unused_event_targets
        [⟨"a.txt", some "save_event_target_as = Hero\n"⟩,
         ⟨"b.yml", some "[Hero.GetName]\n"⟩]
      = [⟨"Hero".toList, "a.txt", 1⟩] := by
  exact ⟨by decide, rfl⟩
